import Mathlib

/-!
Verification model of the scheduler-console plugin's resource-normalization
pipeline: quantity parsing (`utils.ts`: `parseCPUQuantity`,
`parseMemoryQuantity`, `parseGenericResource`), per-pod effective values
(`calculatePodEffectiveCPU` / `calculatePodEffectiveResource`), structural
validity checks (`isValidPod`, `isValidNode`), the per-node aggregator
(`nodeResourceUsage` in the main page component), the statistics deriver
(`clusterStats` in `ClusterOverview.tsx`) and the scheduling-failure
classifier (`getSchedulingFailureReason`, `parseSchedulingFailureMessage`).

Modelling conventions:
* JavaScript numbers are modelled as exact rationals (`ℚ`).  `parseFloat`
  returning `NaN` is modelled as `none : Option ℚ`.  The JS `Infinity`
  literal and IEEE-754 rounding/overflow are outside the model.
* JS string-keyed objects are modelled as association lists (no duplicate
  keys), property access as `List.lookup`.
* The JS idiom `x || d` on a parse result is modelled by `Option.getD`
  (`NaN ↦ d`, and `0 ↦ d` coincides with `0 ↦ 0` wherever `d = 0`).
-/

namespace SchedConsole

/-! ## parseFloat model -/

/-- Whitespace characters skipped by `parseFloat`. -/
def isWsChar (c : Char) : Bool :=
  c = ' ' || c = '\t' || c = '\n' || c = '\r'

/-- Drop leading whitespace. -/
def skipWs : List Char → List Char
  | [] => []
  | c :: cs => if isWsChar c then skipWs cs else c :: cs

/-- Value of a single decimal digit character. -/
def digitVal (c : Char) : Nat := c.toNat - 48

/-- Value of a string of decimal digits. -/
def digitsVal (ds : List Char) : Nat := ds.foldl (fun n c => 10 * n + digitVal c) 0

/-- Split off the longest run of decimal digits at the head of the list. -/
def takeDigits : List Char → List Char × List Char
  | [] => ([], [])
  | c :: cs =>
    if c.isDigit then
      let p := takeDigits cs
      (c :: p.1, p.2)
    else ([], c :: cs)

/-- Value of the exponent digits after `e`/`E` and an optional sign; an empty
digit run means the exponent part is not a valid continuation of the numeric
literal and contributes exponent 0, as `parseFloat` consumes only the longest
valid literal prefix. -/
def expDigitsVal (cs : List Char) : Int :=
  let p := takeDigits cs
  if p.1 = [] then 0 else (digitsVal p.1 : Int)

/-- Exponent value after the `e`/`E` marker: optional sign, then digits. -/
def expSignVal : List Char → Int
  | [] => 0
  | c :: rest =>
    if c = '+' then expDigitsVal rest
    else if c = '-' then - expDigitsVal rest
    else expDigitsVal (c :: rest)

/-- Exponent denoted by the remainder of the input after the mantissa. -/
def expPartVal : List Char → Int
  | [] => 0
  | c :: rest => if c = 'e' || c = 'E' then expSignVal rest else 0

/-- Unsigned part of the `parseFloat` grammar: `digits [. digits] [exp]`,
where at least one digit must be present on one side of the dot. -/
def jsParseFloatMag (cs : List Char) : Option ℚ :=
  let p1 := takeDigits cs
  let p2 : List Char × List Char :=
    match p1.2 with
    | [] => ([], [])
    | c :: rest => if c = '.' then takeDigits rest else ([], c :: rest)
  if p1.1 = [] ∧ p2.1 = [] then none
  else
    let mant : ℚ := (digitsVal p1.1 : ℚ) + (digitsVal p2.1 : ℚ) / (10 : ℚ) ^ p2.1.length
    some (mant * (10 : ℚ) ^ expPartVal p2.2)

/-- `parseFloat` on a character list: skip leading whitespace, read an
optional sign, then the longest valid decimal literal; `none` models `NaN`. -/
def jsParseFloatCore (cs : List Char) : Option ℚ :=
  match skipWs cs with
  | [] => none
  | c :: rest =>
    if c = '-' then (jsParseFloatMag rest).map (fun q => -q)
    else if c = '+' then jsParseFloatMag rest
    else jsParseFloatMag (c :: rest)

/-- `parseFloat` on a string. -/
def jsParseFloat (s : String) : Option ℚ := jsParseFloatCore s.data

/-- The JS idiom `parseFloat(s) || 0`. -/
def jsOrZero (o : Option ℚ) : ℚ := o.getD 0

/-- `parseFloat` applied to a regex capture; for the captures produced by the
matchers below `parseFloat` always succeeds, so the `getD 0` default is never
exercised (see `numCapture_parseFloat`). -/
def parseFloatD (cs : List Char) : ℚ := (jsParseFloatCore cs).getD 0

/-! ## Regex matchers for the quantity parsers -/

/-- Match `\d+(?:\.\d+)?` at the start of the input; return the captured
characters and the remainder.  (A dot not followed by a digit is left in the
remainder by the regex engine; since no caller's tail pattern can consume a
dot, rejecting here is observationally identical.) -/
def numCapture (cs : List Char) : Option (List Char × List Char) :=
  let p1 := takeDigits cs
  if p1.1 = [] then none
  else
    match p1.2 with
    | [] => some (p1.1, [])
    | c :: rest =>
      if c = '.' then
        let p2 := takeDigits rest
        if p2.1 = [] then none
        else some (p1.1 ++ '.' :: p2.1, p2.2)
      else some (p1.1, c :: rest)

/-- Full-string match of `^(\d+(?:\.\d+)?)([m])?$`: the captured numeric part
and whether the `m` suffix is present. -/
def cpuMatch (cs : List Char) : Option (List Char × Bool) :=
  match numCapture cs with
  | none => none
  | some (v, rest) =>
    match rest with
    | [] => some (v, false)
    | [c] => if c = 'm' then some (v, true) else none
    | _ => none

/-- The characters admitted by the `[KMGTPE]` class of the memory regex. -/
def isMemUnitChar (c : Char) : Bool :=
  c = 'K' || c = 'M' || c = 'G' || c = 'T' || c = 'P' || c = 'E'

/-- Full-string match of `^(\d+(?:\.\d+)?)([KMGTPE]i)?$`: the captured numeric
part and the unit letter when the two-character binary suffix is present. -/
def memMatch (cs : List Char) : Option (List Char × Option Char) :=
  match numCapture cs with
  | none => none
  | some (v, rest) =>
    match rest with
    | [] => some (v, none)
    | [u, i] => if isMemUnitChar u ∧ i = 'i' then some (v, some u) else none
    | _ => none

/-- The `units` table of `parseMemoryQuantity`, looked up by unit letter; an
unrecognized letter (unreachable from `memMatch`) maps to 0, standing in for
the JS `undefined` multiplication. -/
def memUnitVal (u : Char) : ℚ :=
  if u = 'K' then 1024
  else if u = 'M' then 1024 ^ 2
  else if u = 'G' then 1024 ^ 3
  else if u = 'T' then 1024 ^ 4
  else if u = 'P' then 1024 ^ 5
  else if u = 'E' then 1024 ^ 6
  else 0

/-! ## The three quantity parsers (`utils.ts`) -/

/-- `parseCPUQuantity`: empty string → 0; `^(\d+(?:\.\d+)?)([m])?$` → value in
cores (an `m` suffix divides by 1000); otherwise `parseFloat(quantity) || 0`. -/
def parseCPUQuantity (quantity : String) : ℚ :=
  if quantity = "" then 0
  else
    match cpuMatch quantity.data with
    | some vm => if vm.2 then parseFloatD vm.1 / 1000 else parseFloatD vm.1
    | none => jsOrZero (jsParseFloat quantity)

/-- `parseMemoryQuantity`: empty string → 0; `^(\d+(?:\.\d+)?)([KMGTPE]i)?$` →
value times the binary unit; otherwise `parseFloat(quantity) || 0`. -/
def parseMemoryQuantity (quantity : String) : ℚ :=
  if quantity = "" then 0
  else
    match memMatch quantity.data with
    | some vu =>
      match vu.2 with
      | some u => parseFloatD vu.1 * memUnitVal u
      | none => parseFloatD vu.1
    | none => jsOrZero (jsParseFloat quantity)

/-- The unanchored test `quantity.match(/[KMGTPE]i?$/)`: the string ends with
a unit letter, or with `i` preceded by a unit letter. -/
def genericUnitAtEnd (cs : List Char) : Bool :=
  match cs.reverse with
  | [] => false
  | c :: rest =>
    if isMemUnitChar c then true
    else if c = 'i' then
      match rest with
      | [] => false
      | c2 :: _ => isMemUnitChar c2
    else false

/-- `parseGenericResource`: empty string → 0; a `parseFloat`-parseable value
with no trailing unit letters is returned as-is; otherwise fall through to
`parseMemoryQuantity`. -/
def parseGenericResource (quantity : String) : ℚ :=
  if quantity = "" then 0
  else
    match jsParseFloat quantity with
    | some v => if genericUnitAtEnd quantity.data then parseMemoryQuantity quantity else v
    | none => parseMemoryQuantity quantity

/-- The resource-kind dispatch repeated at every parse site of the source
(`"cpu"` → CPU parser, `"memory"` → memory parser, else generic parser). -/
def parseResourceQuantity (resourceName quantity : String) : ℚ :=
  if resourceName = "cpu" then parseCPUQuantity quantity
  else if resourceName = "memory" then parseMemoryQuantity quantity
  else parseGenericResource quantity

/-! ## Cluster object snapshots (`types.ts`) -/

/-- The `resources` block of a container: optional string-keyed maps of
quantity strings. -/
structure ContainerResources where
  requests : Option (List (String × String))
  limits : Option (List (String × String))
deriving DecidableEq

/-- A pod container (only its `resources` field is consumed). -/
structure Container where
  resources : Option ContainerResources
deriving DecidableEq

/-- A pod or node condition (`type`, `status`, optional `reason`/`message`). -/
structure CondType where
  type : String
  status : String
  reason : Option String
  message : Option String
deriving DecidableEq

/-- Pod identity; the `namespace` field is spelled `namespc` because
`namespace` is reserved in Lean. -/
structure PodMeta where
  name : String
  uid : String
  namespc : String
deriving DecidableEq

/-- Pod spec: optional assigned node name and the container list. -/
structure PodSpec where
  nodeName : Option String
  containers : List Container
deriving DecidableEq

/-- Pod status: phase and optional condition list. -/
structure PodStatus where
  phase : String
  conditions : Option (List CondType)
deriving DecidableEq

/-- A pod snapshot. -/
structure PodType where
  metadata : PodMeta
  spec : PodSpec
  status : PodStatus
deriving DecidableEq

/-- Node identity. -/
structure NodeMeta where
  name : String
  uid : String
  labels : Option (List (String × String))
deriving DecidableEq

/-- Node status: capacity map and optional condition list. -/
structure NodeStatus where
  capacity : List (String × String)
  conditions : Option (List CondType)
deriving DecidableEq

/-- A node snapshot. -/
structure NodeType where
  metadata : NodeMeta
  status : NodeStatus
deriving DecidableEq

/-- The JS idiom `x || d` on an optional string (`undefined` and the empty
string are falsy). -/
def jsStrOr (o : Option String) (d : String) : String :=
  match o with
  | none => d
  | some s => if s = "" then d else s

/-! ## Validity checks (`utils.ts`: `isValidNode`, `isValidPod`) -/

/-- `isValidNode`: every check of the source (`metadata.uid`/`metadata.name`
are strings, `status` and `status.capacity` are objects) holds by construction
in the typed snapshot model, so validity is identically true. -/
def isValidNode (_node : NodeType) : Bool := true

/-- `isValidPod`: the runtime type checks hold by construction in the typed
snapshot model; the remaining observable checks are the non-empty container
list and the non-terminal phase. -/
def isValidPod (pod : PodType) : Bool :=
  decide (0 < pod.spec.containers.length) &&
    !(["Succeeded", "Failed"].contains pod.status.phase)

/-! ## Per-pod effective values (`utils.ts`) -/

/-- The lookup `container.resources?.requests?.[res] || '0'`. -/
def containerRequest (c : Container) (res : String) : String :=
  jsStrOr (c.resources.bind (fun r => r.requests.bind (fun m => m.lookup res))) "0"

/-- The lookup `container.resources?.limits?.[res] || '0'`. -/
def containerLimit (c : Container) (res : String) : String :=
  jsStrOr (c.resources.bind (fun r => r.limits.bind (fun m => m.lookup res))) "0"

/-- `calculatePodEffectiveCPU`: accumulate parsed CPU requests and limits over
the containers, then take the maximum of the two totals. -/
def calculatePodEffectiveCPU (pod : PodType) : ℚ :=
  let t := pod.spec.containers.foldl
    (fun acc c =>
      (acc.1 + parseCPUQuantity (containerRequest c "cpu"),
       acc.2 + parseCPUQuantity (containerLimit c "cpu")))
    (0, 0)
  max t.1 t.2

/-- `calculatePodEffectiveMemory`: the same accumulation with the memory
parser. -/
def calculatePodEffectiveMemory (pod : PodType) : ℚ :=
  let t := pod.spec.containers.foldl
    (fun acc c =>
      (acc.1 + parseMemoryQuantity (containerRequest c "memory"),
       acc.2 + parseMemoryQuantity (containerLimit c "memory")))
    (0, 0)
  max t.1 t.2

/-- `calculatePodEffectiveResource`: the same accumulation with the parser
selected by resource name. -/
def calculatePodEffectiveResource (pod : PodType) (resourceName : String) : ℚ :=
  let t := pod.spec.containers.foldl
    (fun acc c =>
      (acc.1 + parseResourceQuantity resourceName (containerRequest c resourceName),
       acc.2 + parseResourceQuantity resourceName (containerLimit c resourceName)))
    (0, 0)
  max t.1 t.2

/-! ## Per-node aggregator (`nodeResourceUsage` in the main page component)

The imperative loop builds `{ [res]: { requests: { [node]: q }, limits:
{ [node]: q } } }`.  The model exposes the same observable: for each resource
key that the loop creates, the accumulated per-node totals (absent node keys
read as 0 through the consumer's `|| 0`). -/

/-- Contribution of one container's `requests` map to resource `res`: the loop
skips a missing `resources`/`requests`, a missing key, and a falsy (empty)
value, and otherwise adds the kind-dispatched parse of the value. -/
def containerRequestContrib (res : String) (c : Container) : ℚ :=
  match c.resources with
  | none => 0
  | some rs =>
    match rs.requests with
    | none => 0
    | some m =>
      match m.lookup res with
      | none => 0
      | some v => if v = "" then 0 else parseResourceQuantity res v

/-- Contribution of one container's `limits` map to resource `res`. -/
def containerLimitContrib (res : String) (c : Container) : ℚ :=
  match c.resources with
  | none => 0
  | some rs =>
    match rs.limits with
    | none => 0
    | some m =>
      match m.lookup res with
      | none => 0
      | some v => if v = "" then 0 else parseResourceQuantity res v

/-- The loop's placement guard: `const nodeName = pod.spec.nodeName; if
(!nodeName) return;` — the pod is counted for node `n` when its assigned name
is present, non-empty and equal to `n`. -/
def podOnNode (pod : PodType) (n : String) : Bool :=
  match pod.spec.nodeName with
  | none => false
  | some m => !(m = "") && m = n

/-- Whether the pod has any (non-empty) assigned node name. -/
def podPlaced (pod : PodType) : Bool :=
  match pod.spec.nodeName with
  | none => false
  | some m => !(m = "")

/-- Total requests accumulated for `(res, n)` by the aggregation loop. -/
def requestsTotal (pods : List PodType) (res n : String) : ℚ :=
  ((pods.filter isValidPod).map (fun pod =>
    if podOnNode pod n then (pod.spec.containers.map (containerRequestContrib res)).sum else 0)).sum

/-- Total limits accumulated for `(res, n)` by the aggregation loop. -/
def limitsTotal (pods : List PodType) (res n : String) : ℚ :=
  ((pods.filter isValidPod).map (fun pod =>
    if podOnNode pod n then (pod.spec.containers.map (containerLimitContrib res)).sum else 0)).sum

/-- Whether a container carries a truthy value for `res` in the given map. -/
def mapHasValue (m : Option (List (String × String))) (res : String) : Bool :=
  match m with
  | none => false
  | some l =>
    match l.lookup res with
    | none => false
    | some v => !(v = "")

/-- Whether a container makes the loop create the `res` key (truthy value
under `requests` or `limits`). -/
def containerMentions (res : String) (c : Container) : Bool :=
  match c.resources with
  | none => false
  | some rs => mapHasValue rs.requests res || mapHasValue rs.limits res

/-- Whether the aggregation loop creates the `res` key at all. -/
def resourceObserved (pods : List PodType) (res : String) : Bool :=
  (pods.filter isValidPod).any (fun p =>
    podPlaced p && p.spec.containers.any (containerMentions res))

/-- The observable per-resource entry of the aggregator's output: total
requests and limits by node name (an absent node key reads as 0 through the
consumer's `|| 0`). -/
structure ResourceUsage where
  requests : String → ℚ
  limits : String → ℚ

/-- `nodeResourceUsage`: the resource key exists exactly when some valid,
placed pod carries a truthy value for it; the entry holds the accumulated
totals. -/
def nodeResourceUsage (pods : List PodType) : String → Option ResourceUsage :=
  fun res =>
    if resourceObserved pods res then
      some ⟨fun n => requestsTotal pods res n, fun n => limitsTotal pods res n⟩
    else none

/-! ## Statistics deriver (`clusterStats` in `ClusterOverview.tsx`) -/

/-- One element of the `nodePercentages` array. -/
structure NodePctEntry where
  nodeName : String
  percentage : ℚ
  used : ℚ
  total : ℚ
deriving DecidableEq

/-- The capacity lookup `capacity[resourceName] || '0'`. -/
def nodeCapacityValue (node : NodeType) (res : String) : String :=
  jsStrOr (node.status.capacity.lookup res) "0"

/-- The per-node used value: `requests?.[nodeName] || 0`, falling back to
`limits?.[nodeName] || 0` when it is exactly 0; 0 when the resource key is
absent from the usage map. -/
def nodeUsedValue (usage : String → Option ResourceUsage) (res n : String) : ℚ :=
  match usage res with
  | none => 0
  | some d =>
    let v := d.requests n
    if v = 0 then d.limits n else v

/-- The `nodePercentages` element built for one node: capacity parsed by
resource kind, used value from the usage map, percentage
`total > 0 ? min(used/total*100, 100) : 0`. -/
def nodeEntry (usage : String → Option ResourceUsage) (res : String) (node : NodeType) :
    NodePctEntry :=
  let nodeTotal := parseResourceQuantity res (nodeCapacityValue node res)
  let nodeUsed := nodeUsedValue usage res node.metadata.name
  ⟨node.metadata.name,
   if 0 < nodeTotal then min (nodeUsed / nodeTotal * 100) 100 else 0,
   nodeUsed, nodeTotal⟩

/-- The stable JS `Array.prototype.sort` with comparator
`(a, b) => b.percentage - a.percentage`: a descending stable sort by
percentage. -/
def sortByPctDesc (l : List NodePctEntry) : List NodePctEntry :=
  l.mergeSort (fun a b => decide (b.percentage ≤ a.percentage))

/-- Round a rational to the nearest integer with ties to even: the rounding
step of IEEE-754 round-to-nearest, the mode used by all JS number
arithmetic. -/
def roundNearestEven (q : ℚ) : ℤ :=
  if q - ⌊q⌋ < 1/2 then ⌊q⌋
  else if 1/2 < q - ⌊q⌋ then ⌊q⌋ + 1
  else if ⌊q⌋ % 2 = 0 then ⌊q⌋ else ⌊q⌋ + 1

/-- Round a rational onto the IEEE-754 binary64 grid: 53 significant bits,
round to nearest, ties to even.  The exponent is unbounded (no overflow,
infinities or subnormals), which agrees with binary64 at every magnitude the
dashboard computes. -/
def fl (x : ℚ) : ℚ :=
  if x = 0 then 0
  else if 0 < x then
    (roundNearestEven (x * (2 : ℚ) ^ (52 - Int.log 2 x)) : ℚ) * (2 : ℚ) ^ (Int.log 2 x - 52)
  else
    -((roundNearestEven (-x * (2 : ℚ) ^ (52 - Int.log 2 (-x))) : ℚ) *
      (2 : ℚ) ^ (Int.log 2 (-x) - 52))

/-- `getPercentile`: `null` on the empty array, otherwise the element at index
`Math.ceil((length - 1) * (1 - p / 100))`, with the two inexact operations
(`1 - p/100` after `p/100`, and the product with `length - 1`) evaluated in
binary64 through `fl`; an out-of-range index reads as `undefined`, i.e.
`null`.  `length - 1` on a JS array length (an integer below `2^32`) and
`Math.ceil` of the rounded product are exact in binary64, so they carry no
`fl`. -/
def getPercentile (sorted : List NodePctEntry) (p : ℚ) : Option NodePctEntry :=
  if sorted.length = 0 then none
  else
    let index : Int := Int.ceil (fl (((sorted.length : ℚ) - 1) * fl (1 - fl (p / 100))))
    if index < 0 then none else sorted[index.toNat]?

/-- The six percentile fields of a resource's statistics. -/
structure Percentiles where
  p100 : Option NodePctEntry
  p99 : Option NodePctEntry
  p90 : Option NodePctEntry
  p50 : Option NodePctEntry
  p10 : Option NodePctEntry
  p0 : Option NodePctEntry
deriving DecidableEq

/-- The `percentiles` object: `p100 = sorted[0] || null`,
`p0 = sorted[length - 1] || null`, the rest through `getPercentile`. -/
def percentilesOf (sorted : List NodePctEntry) : Percentiles :=
  { p100 := sorted[0]?
  , p99 := getPercentile sorted 99
  , p90 := getPercentile sorted 90
  , p50 := getPercentile sorted 50
  , p10 := getPercentile sorted 10
  , p0 := sorted[sorted.length - 1]? }

/-- The bucket selected by the distribution's exclusive-upper comparison
chain (the last bucket absorbs everything from 90 up). -/
def bucketIdx (pct : ℚ) : Nat :=
  if pct < 10 then 0
  else if pct < 20 then 1
  else if pct < 30 then 2
  else if pct < 40 then 3
  else if pct < 50 then 4
  else if pct < 60 then 5
  else if pct < 70 then 6
  else if pct < 80 then 7
  else if pct < 90 then 8
  else 9

/-- The ten distribution buckets (`0-10` … `90-100`), counted by folding the
increment of the matching bucket over the node percentage entries. -/
def distributionOf (entries : List NodePctEntry) : List Nat :=
  entries.foldl
    (fun acc e => acc.set (bucketIdx e.percentage) (acc.getD (bucketIdx e.percentage) 0 + 1))
    (List.replicate 10 0)

/-- The per-resource record of `clusterStats.resourceStats`. -/
structure ResourceStats where
  total : ℚ
  used : ℚ
  percentage : ℚ
  nodePercentages : List NodePctEntry
  percentiles : Percentiles
  distribution : List Nat
deriving DecidableEq

/-- The per-resource body of the `selectedResources.forEach` loop in
`clusterStats`: per-node entries over the valid nodes, cluster totals as the
same per-node accumulations, percentiles over the descending sort, and the
distribution histogram. -/
def resourceStatsFor (nodes : List NodeType) (usage : String → Option ResourceUsage)
    (res : String) : ResourceStats :=
  let validNodesList := nodes.filter isValidNode
  let nodePercentages := validNodesList.map (nodeEntry usage res)
  let total := (validNodesList.map (fun node =>
    parseResourceQuantity res (nodeCapacityValue node res))).sum
  let used := (validNodesList.map (fun node =>
    nodeUsedValue usage res node.metadata.name)).sum
  let sorted := sortByPctDesc nodePercentages
  { total := total
  , used := used
  , percentage := if 0 < total then min (used / total * 100) 100 else 0
  , nodePercentages := nodePercentages
  , percentiles := percentilesOf sorted
  , distribution := distributionOf nodePercentages }

/-! ## Scheduling-failure classifier (`parseSchedulingFailureMessage`,
`getSchedulingFailureReason` in `utils.ts`)

The case-insensitive regexes of the source are modelled by direct scanners
over character lists; `\s` is modelled by `isWsChar` and the `.` class
excludes line terminators, as in JS. -/

/-- The apostrophe character (appears in the affinity pattern). -/
def aposChar : Char := Char.ofNat 39

/-- The opening curly brace (appears in the taint pattern). -/
def lbraceChar : Char := Char.ofNat 123

/-- The closing curly brace (appears in the taint pattern). -/
def rbraceChar : Char := Char.ofNat 125

/-- Case-insensitive literal match at the head of the input; returns the
consumed original characters and the remainder. -/
def matchLitCI (pat cs : List Char) : Option (List Char × List Char) :=
  match pat, cs with
  | [], rest => some ([], rest)
  | _ :: _, [] => none
  | p :: ps, c :: cs' =>
    if c.toLower = p.toLower then
      (matchLitCI ps cs').map (fun pr => (c :: pr.1, pr.2))
    else none

/-- Greedy `\s+`: at least one whitespace character; returns the consumed run
and the remainder. -/
def matchWs1 (cs : List Char) : Option (List Char × List Char) :=
  let w := cs.takeWhile isWsChar
  if w = [] then none else some (w, cs.dropWhile isWsChar)

/-- The anchored header regex `^\d+\/\d+\s+nodes\s+are\s+available:\s*`:
the remainder after the match, or `none` when the header is not present. -/
def availHeaderRest (cs : List Char) : Option (List Char) :=
  let p1 := takeDigits cs
  if p1.1 = [] then none
  else
    match p1.2 with
    | [] => none
    | c :: rest =>
      if c = '/' then
        let p2 := takeDigits rest
        if p2.1 = [] then none
        else
          (matchWs1 p2.2).bind fun w1 =>
          (matchLitCI "nodes".data w1.2).bind fun m1 =>
          (matchWs1 m1.2).bind fun w2 =>
          (matchLitCI "are".data w2.2).bind fun m2 =>
          (matchWs1 m2.2).bind fun w3 =>
          (matchLitCI "available:".data w3.2).map fun m3 => m3.2.dropWhile isWsChar
      else none

/-- `message.replace(/^\d+\/\d+\s+nodes\s+are\s+available:\s*/i, '')`. -/
def stripAvailHeader (cs : List Char) : List Char :=
  match availHeaderRest cs with
  | some rest => rest
  | none => cs

/-- The text before the first case-insensitive occurrence of `pat`
(`split(/preemption:/i)[0]`; the whole text when `pat` does not occur). -/
def splitBeforeCI (pat : List Char) : List Char → List Char
  | [] => []
  | c :: rest =>
    match matchLitCI pat (c :: rest) with
    | some _ => []
    | none => c :: splitBeforeCI pat rest

/-- JS `String.prototype.trim` (whitespace from both ends). -/
def trimChars (cs : List Char) : List Char :=
  ((cs.dropWhile isWsChar).reverse.dropWhile isWsChar).reverse

/-- `replace(/\.+$/, '')`: drop trailing period characters. -/
def stripTrailingDots (cs : List Char) : List Char :=
  (cs.reverse.dropWhile (fun c => c = '.')).reverse

/-- The JS `.` class: any character except a line terminator. -/
def notNl (c : Char) : Bool := !(c = '\n') && !(c = '\r')

/-- Continuation of the lazy group `(.+?)(?:\.|$)`: characters up to the first
period or the end of the string; `none` when a line terminator intervenes. -/
def takeToDotOrEnd : List Char → Option (List Char)
  | [] => some []
  | c :: rest =>
    if c = '.' then some []
    else if notNl c then (takeToDotOrEnd rest).map (fun l => c :: l)
    else none

/-- The lazy group `(.+?)(?:\.|$)`: at least one character, stopping at the
first period strictly after the start, or at the end of the string. -/
def lazyGroupToDot (cs : List Char) : Option (List Char) :=
  match cs with
  | [] => none
  | c :: rest => if notNl c then (takeToDotOrEnd rest).map (fun l => c :: l) else none

/-- One attempt of `/persistentvolumeclaim\s+"([^"]+)"\s+(.+?)(?:\.|$)/i` at
the head of the input: the two capture groups on success. -/
def pvcTry (cs : List Char) : Option (List Char × List Char) :=
  (matchLitCI "persistentvolumeclaim".data cs).bind fun m1 =>
  (matchWs1 m1.2).bind fun w1 =>
  match w1.2 with
  | [] => none
  | c :: rest =>
    if c = '"' then
      let name := rest.takeWhile (fun d => !(d = '"'))
      if name = [] then none
      else
        match rest.dropWhile (fun d => !(d = '"')) with
        | [] => none
        | _ :: rest2 =>
          -- the dropped head is the closing quote
          (matchWs1 rest2).bind fun w2 =>
          (lazyGroupToDot w2.2).map fun g2 => (name, g2)
    else none

/-- Leftmost match of the PVC regex over the whole input. -/
def searchPvc : List Char → Option (List Char × List Char)
  | [] => none
  | c :: rest =>
    match pvcTry (c :: rest) with
    | some r => some r
    | none => searchPvc rest

/-- One attempt of `/node\(s\)\s+had\s+taint\s+{([^}]+)}/i` at the head of
the input: the brace-delimited capture on success. -/
def taintTry (cs : List Char) : Option (List Char) :=
  (matchLitCI "node(s)".data cs).bind fun m1 =>
  (matchWs1 m1.2).bind fun w1 =>
  (matchLitCI "had".data w1.2).bind fun m2 =>
  (matchWs1 m2.2).bind fun w2 =>
  (matchLitCI "taint".data w2.2).bind fun m3 =>
  (matchWs1 m3.2).bind fun w3 =>
  match w3.2 with
  | [] => none
  | c :: rest =>
    if c = lbraceChar then
      let cap := rest.takeWhile (fun d => !(d = rbraceChar))
      if cap = [] then none
      else
        match rest.dropWhile (fun d => !(d = rbraceChar)) with
        | [] => none
        | _ :: _ => some cap
    else none

/-- Leftmost match of the taint regex over the whole input. -/
def searchTaint : List Char → Option (List Char)
  | [] => none
  | c :: rest =>
    match taintTry (c :: rest) with
    | some r => some r
    | none => searchTaint rest

/-- The JS `\w` class. -/
def isWordChar (c : Char) : Bool := c.isAlpha || c.isDigit || c = '_'

/-- One attempt of `/(\d+)\s+(Insufficient\s+\w+)/i` at the head of the
input: the digit capture and the original-case second capture on success. -/
def insuffTry (cs : List Char) : Option (List Char × List Char) :=
  let p := takeDigits cs
  if p.1 = [] then none
  else
    (matchWs1 p.2).bind fun w1 =>
    (matchLitCI "insufficient".data w1.2).bind fun m1 =>
    (matchWs1 m1.2).bind fun w2 =>
    let word := w2.2.takeWhile isWordChar
    if word = [] then none
    else some (p.1, m1.1 ++ w2.1 ++ word)

/-- Leftmost match of the insufficient-resource regex over the whole input. -/
def searchInsuff : List Char → Option (List Char × List Char)
  | [] => none
  | c :: rest =>
    match insuffTry (c :: rest) with
    | some r => some r
    | none => searchInsuff rest

/-- The literal `didn't` of the affinity pattern. -/
def didntPat : List Char := ['d', 'i', 'd', 'n', aposChar, 't']

/-- One attempt of the affinity regex (`node\(s\)\s+didn't\s+match\s+[^.]+`)
at the head of the input: the whole matched text on success. -/
def affinityTry (cs : List Char) : Option (List Char) :=
  (matchLitCI "node(s)".data cs).bind fun m1 =>
  (matchWs1 m1.2).bind fun w1 =>
  (matchLitCI didntPat w1.2).bind fun m2 =>
  (matchWs1 m2.2).bind fun w2 =>
  (matchLitCI "match".data w2.2).bind fun m3 =>
  (matchWs1 m3.2).bind fun w3 =>
  let tail := w3.2.takeWhile (fun d => !(d = '.'))
  if tail = [] then none
  else some (m1.1 ++ w1.1 ++ m2.1 ++ w2.1 ++ m3.1 ++ w3.1 ++ tail)

/-- Leftmost match of the affinity regex over the whole input. -/
def searchAffinity : List Char → Option (List Char)
  | [] => none
  | c :: rest =>
    match affinityTry (c :: rest) with
    | some r => some r
    | none => searchAffinity rest

/-- `cleaned.lastIndexOf(':')` as an option. -/
def lastColonIndexOf (cs : List Char) : Option Nat :=
  (cs.reverse.findIdx? (fun c => c = ':')).map (fun i => cs.length - 1 - i)

/-- The take-text-after-the-last-colon step: applied only when the colon is
at a positive, non-final index and the trimmed tail is non-empty and strictly
shorter than the input. -/
def lastColonStep (cs : List Char) : List Char :=
  match lastColonIndexOf cs with
  | none => cs
  | some i =>
    if 0 < i ∧ i + 1 < cs.length then
      let afterColon := trimChars (cs.drop (i + 1))
      if 0 < afterColon.length ∧ afterColon.length < cs.length then afterColon else cs
    else cs

/-- The final length limit: texts longer than 100 characters are cut to 97
and suffixed with an ellipsis. -/
def truncate100 (cs : List Char) : List Char :=
  if 100 < cs.length then cs.take 97 ++ "...".data else cs

/-- `parseSchedulingFailureMessage`: strip the nodes-available header, keep
the text before any preemption clause, drop trailing periods, then apply the
four pattern extractors in order, falling through to the last-colon heuristic
and the length limit; an empty result degrades to `"Unknown reason"`. -/
def parseSchedulingFailureMessage (message : String) : String :=
  if message = "" then "Unknown reason"
  else
    let c1 := stripAvailHeader message.data
    let c2 := trimChars (splitBeforeCI "preemption:".data c1)
    let c3 := trimChars (stripTrailingDots c2)
    match searchPvc c3 with
    | some nr => String.mk ("PVC ".data ++ '"' :: nr.1 ++ '"' :: ' ' :: nr.2)
    | none =>
      match searchTaint c3 with
      | some cap => String.mk ("Taint: ".data ++ cap)
      | none =>
        match searchInsuff c3 with
        | some gg => String.mk (gg.1 ++ ' ' :: gg.2)
        | none =>
          match searchAffinity c3 with
          | some g => String.mk g
          | none =>
            let c4 := truncate100 (lastColonStep c3)
            if c4 = [] then "Unknown reason" else String.mk c4

/-- `getSchedulingFailureReason`: `null` when the condition list is absent or
holds no `PodScheduled`/`False` condition; otherwise the cleaned message when
the message is truthy, else `reason || 'Unknown reason'`. -/
def getSchedulingFailureReason (pod : PodType) : Option String :=
  match pod.status.conditions with
  | none => none
  | some conds =>
    match conds.find? (fun c => c.type = "PodScheduled" && c.status = "False") with
    | none => none
    | some c =>
      match c.message with
      | some m =>
        if m = "" then some (jsStrOr c.reason "Unknown reason")
        else some (parseSchedulingFailureMessage m)
      | none => some (jsStrOr c.reason "Unknown reason")

/-! ## Claim-side definitions

These transcribe the spec's wording, to be compared with the definitions
taken from the source. -/

/-- Spec-side per-container request value: a missing entry contributes 0, a
present entry contributes its kind-dispatched parse. -/
def claimRequestVal (res : String) (c : Container) : ℚ :=
  match c.resources.bind (fun r => r.requests.bind (fun m => m.lookup res)) with
  | none => 0
  | some v => parseResourceQuantity res v

/-- Spec-side per-container limit value. -/
def claimLimitVal (res : String) (c : Container) : ℚ :=
  match c.resources.bind (fun r => r.limits.bind (fun m => m.lookup res)) with
  | none => 0
  | some v => parseResourceQuantity res v

/-- Spec-side effective value: max of the summed requests and the summed
limits across the pod's containers. -/
def claimEffectiveValue (pod : PodType) (res : String) : ℚ :=
  max ((pod.spec.containers.map (claimRequestVal res)).sum)
      ((pod.spec.containers.map (claimLimitVal res)).sum)

/-- The spec's percentile index formula `ceil((n - 1) * (1 - p / 100))`. -/
def claimIdx (n : Nat) (p : ℚ) : Int := Int.ceil (((n : ℚ) - 1) * (1 - p / 100))

/-- Percentage of an optional percentile entry (0 for `null`), used to state
the monotonicity chain. -/
def pctOf : Option NodePctEntry → ℚ
  | none => 0
  | some e => e.percentage

/-! ## Character and digit-run lemmas -/

theorem digit_ne_of {c k : Char} (h : c.isDigit = true) (hk : k.isDigit = false) : c ≠ k := by
  intro he
  rw [he, hk] at h
  exact Bool.false_ne_true h

theorem digit_not_ws {c : Char} (h : c.isDigit = true) : isWsChar c = false := by
  simp only [isWsChar, Bool.or_eq_false_iff, decide_eq_false_iff_not]
  exact ⟨⟨⟨digit_ne_of h (by decide), digit_ne_of h (by decide)⟩,
    digit_ne_of h (by decide)⟩, digit_ne_of h (by decide)⟩

theorem takeDigits_all_digits : ∀ cs : List Char, ∀ c ∈ (takeDigits cs).1, c.isDigit = true := by
  intro cs
  induction cs with
  | nil => intro c hc; simp [takeDigits] at hc
  | cons a l ih =>
    intro c
    by_cases ha : a.isDigit = true
    · rw [show takeDigits (a :: l) = (a :: (takeDigits l).1, (takeDigits l).2) by
        simp [takeDigits, ha]]
      intro hc
      rcases List.mem_cons.mp hc with hc | hc
      · exact hc ▸ ha
      · exact ih c hc
    · rw [show takeDigits (a :: l) = ([], a :: l) by simp [takeDigits, ha]]
      intro hc
      simp at hc

theorem takeDigits_append : ∀ cs : List Char,
    (takeDigits cs).1 ++ (takeDigits cs).2 = cs := by
  intro cs
  induction cs with
  | nil => simp [takeDigits]
  | cons a l ih =>
    by_cases ha : a.isDigit = true
    · simp [takeDigits, ha, ih]
    · simp [takeDigits, ha]

theorem takeDigits_of_digits {ds : List Char} (h : ∀ c ∈ ds, c.isDigit = true) :
    ∀ rest, takeDigits (ds ++ rest) = (ds ++ (takeDigits rest).1, (takeDigits rest).2) := by
  induction ds with
  | nil => intro rest; simp
  | cons a l ih =>
    intro rest
    have ha : a.isDigit = true := h a (List.mem_cons_self a l)
    have hl : ∀ c ∈ l, c.isDigit = true := fun c hc => h c (List.mem_cons_of_mem a hc)
    simp [takeDigits, ha, ih hl rest]

theorem takeDigits_not_digit {cs : List Char}
    (h : cs = [] ∨ ∃ c rest, cs = c :: rest ∧ c.isDigit = false) :
    takeDigits cs = ([], cs) := by
  rcases h with h | ⟨c, rest, rfl, hc⟩
  · simp [h, takeDigits]
  · simp [takeDigits, hc]

theorem takeDigits_eq_self {ds : List Char} (h : ∀ c ∈ ds, c.isDigit = true) :
    takeDigits ds = (ds, []) := by
  have := takeDigits_of_digits h []
  simpa [takeDigits] using this

theorem skipWs_of_digit {c : Char} {cs : List Char} (h : c.isDigit = true) :
    skipWs (c :: cs) = c :: cs := by
  simp [skipWs, digit_not_ws h]

/-! ## parseFloat on digit runs -/

theorem jsParseFloatCore_digits {ds : List Char} (hne : ds ≠ [])
    (hd : ∀ c ∈ ds, c.isDigit = true) :
    jsParseFloatCore ds = some ((digitsVal ds : ℚ)) := by
  obtain ⟨c, l, rfl⟩ := List.exists_cons_of_ne_nil hne
  have hc : c.isDigit = true := hd c (List.mem_cons_self c l)
  have hminus : ¬(c = '-') := digit_ne_of hc (by decide)
  have hplus : ¬(c = '+') := digit_ne_of hc (by decide)
  have htd : takeDigits (c :: l) = (c :: l, []) := takeDigits_eq_self hd
  simp only [jsParseFloatCore, skipWs_of_digit hc]
  rw [if_neg hminus, if_neg hplus]
  simp only [jsParseFloatMag, htd]
  rw [if_neg (fun h => List.cons_ne_nil c l h.1)]
  norm_num [expPartVal, digitsVal]

theorem jsParseFloatCore_digits_dot {d1 d2 : List Char} (h1 : d1 ≠ [])
    (hd1 : ∀ c ∈ d1, c.isDigit = true)
    (hd2 : ∀ c ∈ d2, c.isDigit = true) :
    jsParseFloatCore (d1 ++ '.' :: d2) =
      some ((digitsVal d1 : ℚ) + (digitsVal d2 : ℚ) / (10 : ℚ) ^ d2.length) := by
  obtain ⟨c, l, rfl⟩ := List.exists_cons_of_ne_nil h1
  have hc : c.isDigit = true := hd1 c (List.mem_cons_self c l)
  have hminus : ¬(c = '-') := digit_ne_of hc (by decide)
  have hplus : ¬(c = '+') := digit_ne_of hc (by decide)
  have htd : takeDigits ((c :: l) ++ '.' :: d2) = ((c :: l), '.' :: d2) := by
    rw [takeDigits_of_digits hd1 ('.' :: d2),
      takeDigits_not_digit (Or.inr ⟨'.', d2, rfl, by decide⟩)]
    simp
  have htd2 : takeDigits d2 = (d2, []) := takeDigits_eq_self hd2
  have hcons : (c :: l) ++ '.' :: d2 = c :: (l ++ '.' :: d2) := by simp
  simp only [jsParseFloatCore, hcons, skipWs_of_digit hc]
  rw [if_neg hminus, if_neg hplus]
  simp only [← hcons, jsParseFloatMag, htd, htd2]
  rw [if_neg (fun h => List.cons_ne_nil c l h.1)]
  norm_num [expPartVal]

theorem takeDigits_fst_ne_nil {cs : List Char} (h : (takeDigits cs).1 ≠ []) :
    ∃ c l, cs = c :: l ∧ c.isDigit = true := by
  match cs with
  | [] => exact absurd (by simp [takeDigits]) h
  | c :: l =>
    by_cases hc : c.isDigit = true
    · exact ⟨c, l, rfl, hc⟩
    · exact absurd (by simp [takeDigits, hc]) h

theorem jsParseFloatCore_some_of_head_digit {c : Char} {l : List Char}
    (hc : c.isDigit = true) : ∃ q : ℚ, jsParseFloatCore (c :: l) = some q := by
  have hminus : ¬(c = '-') := digit_ne_of hc (by decide)
  have hplus : ¬(c = '+') := digit_ne_of hc (by decide)
  simp only [jsParseFloatCore, skipWs_of_digit hc]
  rw [if_neg hminus, if_neg hplus]
  simp only [jsParseFloatMag]
  have hfst : (takeDigits (c :: l)).1 = c :: (takeDigits l).1 := by simp [takeDigits, hc]
  rw [if_neg (fun hand => List.cons_ne_nil c (takeDigits l).1 (hfst ▸ hand.1))]
  exact ⟨_, rfl⟩

/-! ## Structure of the numeric capture -/

theorem numCapture_spec {cs v rest : List Char} (h : numCapture cs = some (v, rest)) :
    ∃ d1 d2 : List Char, d1 ≠ [] ∧ (∀ c ∈ d1, c.isDigit = true) ∧
      (∀ c ∈ d2, c.isDigit = true) ∧ cs = v ++ rest ∧
      ((d2 = [] ∧ v = d1) ∨ (d2 ≠ [] ∧ v = d1 ++ '.' :: d2)) := by
  simp only [numCapture] at h
  by_cases h1 : (takeDigits cs).1 = []
  · rw [if_pos h1] at h
    exact absurd h (by simp)
  · rw [if_neg h1] at h
    have hd1 := takeDigits_all_digits cs
    have happ := takeDigits_append cs
    rcases htail : (takeDigits cs).2 with _ | ⟨c, rest'⟩
    · simp only [htail] at h
      obtain ⟨hv, hr⟩ : (takeDigits cs).1 = v ∧ [] = rest := by
        simpa using h
      refine ⟨(takeDigits cs).1, [], h1, hd1, by simp, ?_, Or.inl ⟨rfl, hv.symm⟩⟩
      rw [← hv, ← hr, ← htail]
      simpa using happ.symm
    · simp only [htail] at h
      by_cases hc : c = '.'
      · subst hc
        rw [if_pos rfl] at h
        by_cases h2 : (takeDigits rest').1 = []
        · rw [if_pos h2] at h
          exact absurd h (by simp)
        · rw [if_neg h2] at h
          obtain ⟨hv, hr⟩ : (takeDigits cs).1 ++ '.' :: (takeDigits rest').1 = v ∧
              (takeDigits rest').2 = rest := by simpa using h
          refine ⟨(takeDigits cs).1, (takeDigits rest').1, h1, hd1,
            takeDigits_all_digits rest', ?_, Or.inr ⟨h2, hv.symm⟩⟩
          rw [← hv, ← hr]
          have hsplit := (takeDigits_append rest').symm
          calc cs = (takeDigits cs).1 ++ (takeDigits cs).2 := happ.symm
            _ = (takeDigits cs).1 ++ '.' :: rest' := by rw [htail]
            _ = ((takeDigits cs).1 ++ '.' :: (takeDigits rest').1) ++ (takeDigits rest').2 := by
                conv_lhs => rw [hsplit]
                simp
      · rw [if_neg hc] at h
        obtain ⟨hv, hr⟩ : (takeDigits cs).1 = v ∧ c :: rest' = rest := by simpa using h
        refine ⟨(takeDigits cs).1, [], h1, hd1, by simp, ?_, Or.inl ⟨rfl, hv.symm⟩⟩
        rw [← hv, ← hr, ← htail]
        exact happ.symm

theorem numCapture_parseFloat {cs v rest : List Char} (h : numCapture cs = some (v, rest)) :
    ∃ q : ℚ, jsParseFloatCore v = some q ∧ 0 ≤ q ∧ parseFloatD v = q := by
  obtain ⟨d1, d2, h1, hd1, hd2, _, hcase⟩ := numCapture_spec h
  rcases hcase with ⟨_, rfl⟩ | ⟨_, rfl⟩
  · refine ⟨_, jsParseFloatCore_digits h1 hd1, by positivity, ?_⟩
    simp [parseFloatD, jsParseFloatCore_digits h1 hd1]
  · refine ⟨_, jsParseFloatCore_digits_dot h1 hd1 hd2, by positivity, ?_⟩
    simp [parseFloatD, jsParseFloatCore_digits_dot h1 hd1 hd2]

theorem numCapture_head_digit {cs : List Char} {x : List Char × List Char}
    (h : numCapture cs = some x) : ∃ c l, cs = c :: l ∧ c.isDigit = true := by
  simp only [numCapture] at h
  by_cases h1 : (takeDigits cs).1 = []
  · rw [if_pos h1] at h
    exact absurd h (by simp)
  · exact takeDigits_fst_ne_nil h1

theorem cpuMatch_capture {cs v : List Char} {b : Bool} (h : cpuMatch cs = some (v, b)) :
    ∃ rest, numCapture cs = some (v, rest) := by
  unfold cpuMatch at h
  rcases hnc : numCapture cs with _ | ⟨v', rest⟩
  · rw [hnc] at h
    exact absurd h (by simp)
  · rcases rest with _ | ⟨c, rest'⟩
    · rw [hnc] at h
      obtain ⟨hv, _⟩ : v' = v ∧ false = b := by simpa using h
      subst hv
      exact ⟨[], rfl⟩
    · rcases rest' with _ | ⟨c2, rest2⟩
      · rw [hnc] at h
        by_cases hc : c = 'm'
        · subst hc
          obtain ⟨hv, _⟩ : v' = v ∧ true = b := by simpa using h
          subst hv
          exact ⟨['m'], rfl⟩
        · simp [hc] at h
      · rw [hnc] at h
        simp at h

theorem memMatch_capture {cs v : List Char} {u : Option Char}
    (h : memMatch cs = some (v, u)) : ∃ rest, numCapture cs = some (v, rest) := by
  unfold memMatch at h
  rcases hnc : numCapture cs with _ | ⟨v', rest⟩
  · rw [hnc] at h
    exact absurd h (by simp)
  · rcases rest with _ | ⟨c, rest'⟩
    · rw [hnc] at h
      obtain ⟨hv, _⟩ : v' = v ∧ none = u := by simpa using h
      subst hv
      exact ⟨[], rfl⟩
    · rcases rest' with _ | ⟨c2, rest2⟩
      · rw [hnc] at h
        simp at h
      · rcases rest2 with _ | ⟨c3, rest3⟩
        · rw [hnc] at h
          by_cases hc : isMemUnitChar c ∧ c2 = 'i'
          · obtain ⟨hv, _⟩ : v' = v ∧ some c = u := by simpa [hc] using h
            subst hv
            exact ⟨[c, c2], rfl⟩
          · simp [hc] at h
        · rw [hnc] at h
          simp at h

theorem cpuMatch_of_numCapture_none {cs : List Char} (h : numCapture cs = none) :
    cpuMatch cs = none := by
  unfold cpuMatch
  rw [h]

theorem memMatch_of_numCapture_none {cs : List Char} (h : numCapture cs = none) :
    memMatch cs = none := by
  unfold memMatch
  rw [h]

theorem memMatch_shape {cs v : List Char} {u : Option Char}
    (h : memMatch cs = some (v, u)) :
    (u = none ∧ numCapture cs = some (v, [])) ∨
      (∃ c, u = some c ∧ isMemUnitChar c = true ∧ numCapture cs = some (v, [c, 'i'])) := by
  unfold memMatch at h
  rcases hnc : numCapture cs with _ | ⟨v', rest⟩
  · rw [hnc] at h
    exact absurd h (by simp)
  · rcases rest with _ | ⟨c, rest'⟩
    · rw [hnc] at h
      obtain ⟨hv, hu⟩ : v' = v ∧ none = u := by simpa using h
      subst hv
      exact Or.inl ⟨hu.symm, rfl⟩
    · rcases rest' with _ | ⟨c2, rest2⟩
      · rw [hnc] at h
        simp at h
      · rcases rest2 with _ | ⟨c3, rest3⟩
        · rw [hnc] at h
          by_cases hc : isMemUnitChar c ∧ c2 = 'i'
          · obtain ⟨hv, hu⟩ : v' = v ∧ some c = u := by simpa [hc] using h
            subst hv
            obtain ⟨hc1, hc2⟩ := hc
            subst hc2
            exact Or.inr ⟨c, hu.symm, hc1, rfl⟩
          · simp [hc] at h
        · rw [hnc] at h
          simp at h

/-! ## Evaluations and non-negativity of the quantity parsers -/

theorem parseCPUQuantity_empty : parseCPUQuantity "" = 0 := by
  simp [parseCPUQuantity]

theorem parseMemoryQuantity_empty : parseMemoryQuantity "" = 0 := by
  simp [parseMemoryQuantity]

theorem parseGenericResource_empty : parseGenericResource "" = 0 := by
  simp [parseGenericResource]

theorem parseResourceQuantity_empty (res : String) : parseResourceQuantity res "" = 0 := by
  unfold parseResourceQuantity
  split_ifs <;>
    simp [parseCPUQuantity_empty, parseMemoryQuantity_empty, parseGenericResource_empty]

theorem parseCPUQuantity_zero : parseCPUQuantity "0" = 0 := by
  simp +decide [parseCPUQuantity, cpuMatch, numCapture, takeDigits, parseFloatD,
    jsParseFloatCore, jsParseFloatMag, expPartVal, digitsVal, digitVal, skipWs, isWsChar]

theorem parseMemoryQuantity_zero : parseMemoryQuantity "0" = 0 := by
  simp +decide [parseMemoryQuantity, memMatch, numCapture, takeDigits, parseFloatD,
    jsParseFloatCore, jsParseFloatMag, expPartVal, digitsVal, digitVal, skipWs, isWsChar]

theorem parseGenericResource_zero : parseGenericResource "0" = 0 := by
  simp +decide [parseGenericResource, jsParseFloat, jsParseFloatCore, jsParseFloatMag,
    takeDigits, expPartVal, digitsVal, digitVal, skipWs, isWsChar, genericUnitAtEnd,
    isMemUnitChar]

theorem parseResourceQuantity_zero (res : String) : parseResourceQuantity res "0" = 0 := by
  unfold parseResourceQuantity
  split_ifs <;>
    simp [parseCPUQuantity_zero, parseMemoryQuantity_zero, parseGenericResource_zero]

theorem data_eq_nil_iff {s : String} : s.data = [] ↔ s = "" := by
  constructor
  · intro h
    cases s
    simp_all [String.ext_iff]
  · intro h
    simp [h]

theorem parsers_of_parseFloat_none {s : String} (h : jsParseFloat s = none) :
    parseCPUQuantity s = 0 ∧ parseMemoryQuantity s = 0 ∧ parseGenericResource s = 0 := by
  by_cases hs : s = ""
  · subst hs
    exact ⟨parseCPUQuantity_empty, parseMemoryQuantity_empty, parseGenericResource_empty⟩
  · have hnc : numCapture s.data = none := by
      rcases hx : numCapture s.data with _ | x
      · rfl
      · obtain ⟨c, l, hdata, hc⟩ := numCapture_head_digit hx
        obtain ⟨q, hq⟩ := jsParseFloatCore_some_of_head_digit (l := l) hc
        rw [jsParseFloat, hdata, hq] at h
        exact absurd h (by simp)
    refine ⟨?_, ?_, ?_⟩
    · simp only [parseCPUQuantity, if_neg hs, cpuMatch_of_numCapture_none hnc, h, jsOrZero]
      rfl
    · simp only [parseMemoryQuantity, if_neg hs, memMatch_of_numCapture_none hnc, h, jsOrZero]
      rfl
    · simp only [parseGenericResource, if_neg hs, h]
      simp only [parseMemoryQuantity, if_neg hs, memMatch_of_numCapture_none hnc, h, jsOrZero]
      rfl

theorem memUnitVal_nonneg (u : Char) : 0 ≤ memUnitVal u := by
  unfold memUnitVal
  split_ifs <;> norm_num

theorem parseCPUQuantity_nonneg_of_match {s : String} (h : cpuMatch s.data ≠ none) :
    0 ≤ parseCPUQuantity s := by
  obtain ⟨⟨v, b⟩, hm⟩ := Option.ne_none_iff_exists'.mp h
  obtain ⟨rest, hnc⟩ := cpuMatch_capture hm
  obtain ⟨q, _, hq0, hqD⟩ := numCapture_parseFloat hnc
  have hs : ¬(s = "") := by
    intro hs
    rw [hs, show ("" : String).data = [] from rfl,
      show numCapture ([] : List Char) = none from rfl] at hnc
    cases hnc
  simp only [parseCPUQuantity, if_neg hs, hm]
  cases b
  · simpa [hqD] using hq0
  · simp only [hqD]
    positivity

theorem parseMemoryQuantity_nonneg_of_match {s : String} (h : memMatch s.data ≠ none) :
    0 ≤ parseMemoryQuantity s := by
  obtain ⟨⟨v, u⟩, hm⟩ := Option.ne_none_iff_exists'.mp h
  obtain ⟨rest, hnc⟩ := memMatch_capture hm
  obtain ⟨q, _, hq0, hqD⟩ := numCapture_parseFloat hnc
  have hs : ¬(s = "") := by
    intro hs
    rw [hs, show ("" : String).data = [] from rfl,
      show numCapture ([] : List Char) = none from rfl] at hnc
    cases hnc
  simp only [parseMemoryQuantity, if_neg hs, hm]
  cases u with
  | none => simpa [hqD] using hq0
  | some c =>
    simp only [hqD]
    exact mul_nonneg hq0 (memUnitVal_nonneg c)

theorem memMatch_unit_end {cs v : List Char} {c : Char}
    (h : memMatch cs = some (v, some c)) : genericUnitAtEnd cs = true := by
  rcases memMatch_shape h with ⟨hu, _⟩ | ⟨c', hu, hc', hnc⟩
  · exact absurd hu (by simp)
  · obtain rfl : c = c' := Option.some.inj hu
    obtain ⟨d1, d2, _, _, _, happ, _⟩ := numCapture_spec hnc
    subst happ
    simp only [genericUnitAtEnd, List.reverse_append]
    have hni : isMemUnitChar 'i' = false := by decide
    simp [hni, hc']

theorem parseGenericResource_nonneg_of_match {s : String} (h : memMatch s.data ≠ none) :
    0 ≤ parseGenericResource s := by
  obtain ⟨⟨v, u⟩, hm⟩ := Option.ne_none_iff_exists'.mp h
  obtain ⟨rest, hnc⟩ := memMatch_capture hm
  have hs : ¬(s = "") := by
    intro hs
    rw [hs, show ("" : String).data = [] from rfl,
      show numCapture ([] : List Char) = none from rfl] at hnc
    cases hnc
  rcases hpf : jsParseFloat s with _ | q
  · exact ((parsers_of_parseFloat_none hpf).2.2).symm.le
  · simp only [parseGenericResource, if_neg hs, hpf]
    by_cases hend : genericUnitAtEnd s.data = true
    · simp only [hend, if_pos rfl]
      exact parseMemoryQuantity_nonneg_of_match h
    · have hend' : genericUnitAtEnd s.data = false := Bool.eq_false_iff.mpr hend
      rw [hend', if_neg (by decide : ¬(false = true))]
      -- with no trailing unit letters the match has no unit suffix, so the
      -- whole string is the numeric capture and parseFloat is non-negative
      rcases memMatch_shape hm with ⟨hu, hnc0⟩ | ⟨c, hu, hc, hnc2⟩
      · obtain ⟨q', hq', hq0, _⟩ := numCapture_parseFloat hnc0
        obtain ⟨_, _, _, _, _, happ, _⟩ := numCapture_spec hnc0
        have hsome : jsParseFloat s = some q' := by
          rw [jsParseFloat, happ, List.append_nil]
          exact hq'
        rw [hpf] at hsome
        obtain rfl : q = q' := Option.some.inj hsome
        exact hq0
      · exact absurd (memMatch_unit_end (hu ▸ hm)) (by simpa using hend)

/-! ## The CPU parser on well-formed quantity strings -/

theorem numCapture_digits {d1 : List Char} (h1 : d1 ≠ [])
    (hd1 : ∀ c ∈ d1, c.isDigit = true) : numCapture d1 = some (d1, []) := by
  simp only [numCapture, takeDigits_eq_self hd1]
  rw [if_neg h1]

theorem numCapture_digits_m {d1 : List Char} (h1 : d1 ≠ [])
    (hd1 : ∀ c ∈ d1, c.isDigit = true) : numCapture (d1 ++ ['m']) = some (d1, ['m']) := by
  have ht : takeDigits (d1 ++ ['m']) = (d1, ['m']) := by
    rw [takeDigits_of_digits hd1, takeDigits_not_digit (Or.inr ⟨'m', [], rfl, by decide⟩)]
    simp
  simp only [numCapture, ht]
  rw [if_neg h1, if_neg (by decide : ¬('m' = '.'))]

theorem numCapture_digits_dot {d1 d2 : List Char} (h1 : d1 ≠ [])
    (hd1 : ∀ c ∈ d1, c.isDigit = true) (h2 : d2 ≠ [])
    (hd2 : ∀ c ∈ d2, c.isDigit = true) :
    numCapture (d1 ++ '.' :: d2) = some (d1 ++ '.' :: d2, []) := by
  have ht : takeDigits (d1 ++ '.' :: d2) = (d1, '.' :: d2) := by
    rw [takeDigits_of_digits hd1, takeDigits_not_digit (Or.inr ⟨'.', d2, rfl, by decide⟩)]
    simp
  simp only [numCapture, ht]
  rw [if_neg h1, if_pos trivial, takeDigits_eq_self hd2]
  rw [if_neg h2]

theorem numCapture_digits_dot_m {d1 d2 : List Char} (h1 : d1 ≠ [])
    (hd1 : ∀ c ∈ d1, c.isDigit = true) (h2 : d2 ≠ [])
    (hd2 : ∀ c ∈ d2, c.isDigit = true) :
    numCapture (d1 ++ '.' :: (d2 ++ ['m'])) = some (d1 ++ '.' :: d2, ['m']) := by
  have ht2 : takeDigits (d2 ++ ['m']) = (d2, ['m']) := by
    rw [takeDigits_of_digits hd2, takeDigits_not_digit (Or.inr ⟨'m', [], rfl, by decide⟩)]
    simp
  have ht : takeDigits (d1 ++ '.' :: (d2 ++ ['m'])) = (d1, '.' :: (d2 ++ ['m'])) := by
    rw [takeDigits_of_digits hd1,
      takeDigits_not_digit (Or.inr ⟨'.', d2 ++ ['m'], rfl, by decide⟩)]
    simp
  simp only [numCapture, ht]
  rw [if_neg h1, if_pos trivial, ht2]
  rw [if_neg h2]

theorem cpuMatch_digits {d1 : List Char} (h1 : d1 ≠ [])
    (hd1 : ∀ c ∈ d1, c.isDigit = true) : cpuMatch d1 = some (d1, false) := by
  simp only [cpuMatch, numCapture_digits h1 hd1]

theorem cpuMatch_digits_m {d1 : List Char} (h1 : d1 ≠ [])
    (hd1 : ∀ c ∈ d1, c.isDigit = true) : cpuMatch (d1 ++ ['m']) = some (d1, true) := by
  simp +decide only [cpuMatch, numCapture_digits_m h1 hd1]
  rw [if_pos trivial]

theorem cpuMatch_digits_dot {d1 d2 : List Char} (h1 : d1 ≠ [])
    (hd1 : ∀ c ∈ d1, c.isDigit = true) (h2 : d2 ≠ [])
    (hd2 : ∀ c ∈ d2, c.isDigit = true) :
    cpuMatch (d1 ++ '.' :: d2) = some (d1 ++ '.' :: d2, false) := by
  simp only [cpuMatch, numCapture_digits_dot h1 hd1 h2 hd2]

theorem cpuMatch_digits_dot_m {d1 d2 : List Char} (h1 : d1 ≠ [])
    (hd1 : ∀ c ∈ d1, c.isDigit = true) (h2 : d2 ≠ [])
    (hd2 : ∀ c ∈ d2, c.isDigit = true) :
    cpuMatch (d1 ++ '.' :: (d2 ++ ['m'])) = some (d1 ++ '.' :: d2, true) := by
  simp +decide only [cpuMatch, numCapture_digits_dot_m h1 hd1 h2 hd2]
  rw [if_pos trivial]

theorem mk_ne_empty {l : List Char} (h : l ≠ []) : ¬(String.mk l = "") :=
  fun he => h (by simpa using congrArg String.data he)

theorem parseCPUQuantity_digits {d1 : List Char} (h1 : d1 ≠ [])
    (hd1 : ∀ c ∈ d1, c.isDigit = true) :
    parseCPUQuantity (String.mk d1) = (digitsVal d1 : ℚ) := by
  simp only [parseCPUQuantity, if_neg (mk_ne_empty h1),
    show (String.mk d1).data = d1 from rfl, cpuMatch_digits h1 hd1]
  rw [if_neg (by decide : ¬(false = true))]
  simp [parseFloatD, jsParseFloatCore_digits h1 hd1]

theorem parseCPUQuantity_digits_m {d1 : List Char} (h1 : d1 ≠ [])
    (hd1 : ∀ c ∈ d1, c.isDigit = true) :
    parseCPUQuantity (String.mk (d1 ++ ['m'])) = (digitsVal d1 : ℚ) / 1000 := by
  have hne : d1 ++ ['m'] ≠ [] := by simp
  simp only [parseCPUQuantity, if_neg (mk_ne_empty hne),
    show (String.mk (d1 ++ ['m'])).data = d1 ++ ['m'] from rfl, cpuMatch_digits_m h1 hd1]
  rw [if_pos trivial]
  simp [parseFloatD, jsParseFloatCore_digits h1 hd1]

theorem parseCPUQuantity_digits_dot {d1 d2 : List Char} (h1 : d1 ≠ [])
    (hd1 : ∀ c ∈ d1, c.isDigit = true) (h2 : d2 ≠ [])
    (hd2 : ∀ c ∈ d2, c.isDigit = true) :
    parseCPUQuantity (String.mk (d1 ++ '.' :: d2)) =
      (digitsVal d1 : ℚ) + (digitsVal d2 : ℚ) / (10 : ℚ) ^ d2.length := by
  have hne : d1 ++ '.' :: d2 ≠ [] := by simp
  simp only [parseCPUQuantity, if_neg (mk_ne_empty hne),
    show (String.mk (d1 ++ '.' :: d2)).data = d1 ++ '.' :: d2 from rfl,
    cpuMatch_digits_dot h1 hd1 h2 hd2]
  rw [if_neg (by decide : ¬(false = true))]
  simp [parseFloatD, jsParseFloatCore_digits_dot h1 hd1 hd2]

theorem parseCPUQuantity_digits_dot_m {d1 d2 : List Char} (h1 : d1 ≠ [])
    (hd1 : ∀ c ∈ d1, c.isDigit = true) (h2 : d2 ≠ [])
    (hd2 : ∀ c ∈ d2, c.isDigit = true) :
    parseCPUQuantity (String.mk (d1 ++ '.' :: (d2 ++ ['m']))) =
      ((digitsVal d1 : ℚ) + (digitsVal d2 : ℚ) / (10 : ℚ) ^ d2.length) / 1000 := by
  have hne : d1 ++ '.' :: (d2 ++ ['m']) ≠ [] := by simp
  simp only [parseCPUQuantity, if_neg (mk_ne_empty hne),
    show (String.mk (d1 ++ '.' :: (d2 ++ ['m']))).data = d1 ++ '.' :: (d2 ++ ['m']) from rfl,
    cpuMatch_digits_dot_m h1 hd1 h2 hd2]
  rw [if_pos trivial]
  simp [parseFloatD, jsParseFloatCore_digits_dot h1 hd1 hd2]

/-! ## Claim C1 -/

/-- C1 (counterexample): the quantity parsers are not non-negative on every
input: `"-5"` bypasses the anchored CPU regex and falls through to
`parseFloat`, yielding the negative value −5. -/
theorem claim_C1_counterexample : parseCPUQuantity "-5" < 0 := by
  have h : parseCPUQuantity "-5" = -5 := by
    simp +decide [parseCPUQuantity, cpuMatch, numCapture, takeDigits, parseFloatD,
      jsParseFloatCore, jsParseFloatMag, expPartVal, expSignVal, expDigitsVal, digitsVal,
      digitVal, jsOrZero, isWsChar, skipWs, jsParseFloat]
  rw [h]
  norm_num

/-- C1 (amended): every quantity parser is total (never raises); the empty
string, and any string on which `parseFloat` yields `NaN`, parse to exactly 0
under all three parsers; and every input matching the parser's anchored
quantity pattern yields a non-negative value.  Unrestricted inputs can parse
to negative values (e.g. `"-5"`), so the original unconditional
non-negativity does not hold. -/
theorem claim_C1 (s : String) :
    (s = "" →
      parseCPUQuantity s = 0 ∧ parseMemoryQuantity s = 0 ∧ parseGenericResource s = 0) ∧
    (jsParseFloat s = none →
      parseCPUQuantity s = 0 ∧ parseMemoryQuantity s = 0 ∧ parseGenericResource s = 0) ∧
    (cpuMatch s.data ≠ none → 0 ≤ parseCPUQuantity s) ∧
    (memMatch s.data ≠ none → 0 ≤ parseMemoryQuantity s ∧ 0 ≤ parseGenericResource s) := by
  refine ⟨?_, fun h => parsers_of_parseFloat_none h,
    fun h => parseCPUQuantity_nonneg_of_match h,
    fun h => ⟨parseMemoryQuantity_nonneg_of_match h, parseGenericResource_nonneg_of_match h⟩⟩
  rintro rfl
  exact ⟨parseCPUQuantity_empty, parseMemoryQuantity_empty, parseGenericResource_empty⟩

/-- C1 witness: the amended claim at the concrete inputs `"500m"` (matches
the CPU pattern) and `"1Gi"` (matches the memory pattern). -/
theorem claim_C1_witness :
    cpuMatch "500m".data ≠ none ∧ memMatch "1Gi".data ≠ none ∧
      0 ≤ parseCPUQuantity "500m" ∧ 0 ≤ parseMemoryQuantity "1Gi" :=
  ⟨by decide, by decide, (claim_C1 "500m").2.2.1 (by decide),
    ((claim_C1 "1Gi").2.2.2 (by decide)).1⟩

/-! ## Claim C9 -/

/-- C9: the CPU parser maps a bare decimal numeral (integral part `d1`,
optional fractional part `d2`) to that many cores, and an `m`-suffixed
numeral to the same value divided by 1000; in particular
`parseCPUQuantity "500m" = 0.5`, `parseCPUQuantity "2" = 2` and
`parseCPUQuantity "" = 0`. -/
theorem claim_C9 (d1 d2 : List Char) (h1 : d1 ≠ []) (hd1 : ∀ c ∈ d1, c.isDigit = true)
    (h2 : d2 ≠ []) (hd2 : ∀ c ∈ d2, c.isDigit = true) :
    parseCPUQuantity (String.mk d1) = (digitsVal d1 : ℚ) ∧
    parseCPUQuantity (String.mk (d1 ++ ['m'])) = (digitsVal d1 : ℚ) / 1000 ∧
    parseCPUQuantity (String.mk (d1 ++ '.' :: d2)) =
      (digitsVal d1 : ℚ) + (digitsVal d2 : ℚ) / (10 : ℚ) ^ d2.length ∧
    parseCPUQuantity (String.mk (d1 ++ '.' :: (d2 ++ ['m']))) =
      ((digitsVal d1 : ℚ) + (digitsVal d2 : ℚ) / (10 : ℚ) ^ d2.length) / 1000 ∧
    parseCPUQuantity "500m" = 1 / 2 ∧ parseCPUQuantity "2" = 2 ∧ parseCPUQuantity "" = 0 := by
  refine ⟨parseCPUQuantity_digits h1 hd1, parseCPUQuantity_digits_m h1 hd1,
    parseCPUQuantity_digits_dot h1 hd1 h2 hd2, parseCPUQuantity_digits_dot_m h1 hd1 h2 hd2,
    ?_, ?_, parseCPUQuantity_empty⟩
  · simp +decide [parseCPUQuantity, cpuMatch, numCapture, takeDigits, parseFloatD,
      jsParseFloatCore, jsParseFloatMag, expPartVal, digitsVal, digitVal, skipWs, isWsChar]
    norm_num
  · simp +decide [parseCPUQuantity, cpuMatch, numCapture, takeDigits, parseFloatD,
      jsParseFloatCore, jsParseFloatMag, expPartVal, digitsVal, digitVal, skipWs, isWsChar]

/-- C9 witness: the numeral laws at the concrete digit strings `"5"` and
`"5.2"`-shaped inputs. -/
theorem claim_C9_witness :
    (['5'] : List Char) ≠ [] ∧
      parseCPUQuantity (String.mk ['5']) = (digitsVal ['5'] : ℚ) ∧
      parseCPUQuantity "500m" = 1 / 2 :=
  ⟨by decide,
    (claim_C9 ['5'] ['2'] (by decide) (by decide) (by decide) (by decide)).1,
    (claim_C9 ['5'] ['2'] (by decide) (by decide) (by decide) (by decide)).2.2.2.2.1⟩

/-! ## Claim C2 -/

theorem parseResourceQuantity_cpu (q : String) :
    parseResourceQuantity "cpu" q = parseCPUQuantity q := by
  simp [parseResourceQuantity]

theorem parseResourceQuantity_memory (q : String) :
    parseResourceQuantity "memory" q = parseMemoryQuantity q := by
  simp [parseResourceQuantity]

theorem foldl_pair_sum (l : List Container) (f g : Container → ℚ) (a b : ℚ) :
    l.foldl (fun acc c => (acc.1 + f c, acc.2 + g c)) (a, b) =
      (a + (l.map f).sum, b + (l.map g).sum) := by
  induction l generalizing a b with
  | nil => simp
  | cons c t ih => simp [ih, add_assoc]

theorem parse_containerRequest (res : String) (c : Container) :
    parseResourceQuantity res (containerRequest c res) = claimRequestVal res c := by
  unfold containerRequest claimRequestVal jsStrOr
  cases hx : c.resources.bind (fun r => r.requests.bind (fun m => m.lookup res)) with
  | none => simp [parseResourceQuantity_zero]
  | some v =>
    by_cases hv : v = ""
    · subst hv
      simp [parseResourceQuantity_zero, parseResourceQuantity_empty]
    · simp [hv]

theorem parse_containerLimit (res : String) (c : Container) :
    parseResourceQuantity res (containerLimit c res) = claimLimitVal res c := by
  unfold containerLimit claimLimitVal jsStrOr
  cases hx : c.resources.bind (fun r => r.limits.bind (fun m => m.lookup res)) with
  | none => simp [parseResourceQuantity_zero]
  | some v =>
    by_cases hv : v = ""
    · subst hv
      simp [parseResourceQuantity_zero, parseResourceQuantity_empty]
    · simp [hv]

/-- C2: for every pod and resource name, the pod's effective value computed by
the source's accumulation loop equals max(sum of the resource's requests
across the containers, sum of its limits), a missing entry contributing 0;
likewise for the dedicated CPU and memory variants. -/
theorem claim_C2 (pod : PodType) (res : String) :
    calculatePodEffectiveResource pod res = claimEffectiveValue pod res ∧
    calculatePodEffectiveCPU pod = claimEffectiveValue pod "cpu" ∧
    calculatePodEffectiveMemory pod = claimEffectiveValue pod "memory" := by
  refine ⟨?_, ?_, ?_⟩
  · unfold calculatePodEffectiveResource claimEffectiveValue
    rw [foldl_pair_sum]
    simp [parse_containerRequest, parse_containerLimit]
  · unfold calculatePodEffectiveCPU claimEffectiveValue
    rw [foldl_pair_sum]
    have hreq : ∀ c, parseCPUQuantity (containerRequest c "cpu") = claimRequestVal "cpu" c :=
      fun c => (parseResourceQuantity_cpu _) ▸ parse_containerRequest "cpu" c
    have hlim : ∀ c, parseCPUQuantity (containerLimit c "cpu") = claimLimitVal "cpu" c :=
      fun c => (parseResourceQuantity_cpu _) ▸ parse_containerLimit "cpu" c
    simp [hreq, hlim]
  · unfold calculatePodEffectiveMemory claimEffectiveValue
    rw [foldl_pair_sum]
    have hreq : ∀ c,
        parseMemoryQuantity (containerRequest c "memory") = claimRequestVal "memory" c :=
      fun c => (parseResourceQuantity_memory _) ▸ parse_containerRequest "memory" c
    have hlim : ∀ c,
        parseMemoryQuantity (containerLimit c "memory") = claimLimitVal "memory" c :=
      fun c => (parseResourceQuantity_memory _) ▸ parse_containerLimit "memory" c
    simp [hreq, hlim]

/-! ## Invalid pods and the aggregator (claims C6 and C10) -/

theorem isValidPod_terminal {pod : PodType}
    (h : pod.status.phase = "Succeeded" ∨ pod.status.phase = "Failed") :
    isValidPod pod = false := by
  unfold isValidPod
  rcases h with h | h <;> simp +decide [h]

theorem isValidPod_no_containers {pod : PodType} (h : pod.spec.containers = []) :
    isValidPod pod = false := by
  simp [isValidPod, h]

theorem filter_invalid_middle {pods1 pods2 : List PodType} {pod : PodType}
    (h : isValidPod pod = false) :
    (pods1 ++ pod :: pods2).filter isValidPod = (pods1 ++ pods2).filter isValidPod := by
  simp [List.filter_append, List.filter_cons, h]

theorem requestsTotal_invalid_middle {pods1 pods2 : List PodType} {pod : PodType}
    (h : isValidPod pod = false) (res n : String) :
    requestsTotal (pods1 ++ pod :: pods2) res n = requestsTotal (pods1 ++ pods2) res n := by
  unfold requestsTotal
  rw [filter_invalid_middle h]

theorem limitsTotal_invalid_middle {pods1 pods2 : List PodType} {pod : PodType}
    (h : isValidPod pod = false) (res n : String) :
    limitsTotal (pods1 ++ pod :: pods2) res n = limitsTotal (pods1 ++ pods2) res n := by
  unfold limitsTotal
  rw [filter_invalid_middle h]

theorem nodeResourceUsage_invalid_middle {pods1 pods2 : List PodType} {pod : PodType}
    (h : isValidPod pod = false) (res : String) :
    nodeResourceUsage (pods1 ++ pod :: pods2) res = nodeResourceUsage (pods1 ++ pods2) res := by
  unfold nodeResourceUsage resourceObserved requestsTotal limitsTotal
  rw [filter_invalid_middle h]

/-- C6: a pod in a terminal phase (`Succeeded` or `Failed`) contributes
nothing to any node's aggregated totals: inserting it anywhere in the pod
list leaves every per-node request total and limit total, and the
aggregator's whole output entry, unchanged for every resource. -/
theorem claim_C6 (pods1 pods2 : List PodType) (pod : PodType)
    (h : pod.status.phase = "Succeeded" ∨ pod.status.phase = "Failed") :
    (∀ res n,
      requestsTotal (pods1 ++ pod :: pods2) res n = requestsTotal (pods1 ++ pods2) res n ∧
      limitsTotal (pods1 ++ pod :: pods2) res n = limitsTotal (pods1 ++ pods2) res n) ∧
    (∀ res,
      nodeResourceUsage (pods1 ++ pod :: pods2) res = nodeResourceUsage (pods1 ++ pods2) res) := by
  have hv : isValidPod pod = false := isValidPod_terminal h
  exact ⟨fun res n => ⟨requestsTotal_invalid_middle hv res n,
    limitsTotal_invalid_middle hv res n⟩, fun res => nodeResourceUsage_invalid_middle hv res⟩

/-- C6 witness: a concrete `Succeeded` pod with a CPU request on node `n1`
leaves the totals of the empty pod list unchanged. -/
theorem claim_C6_witness :
    requestsTotal
        [(⟨⟨"p", "u", "ns"⟩, ⟨some "n1", [⟨some ⟨some [("cpu", "2")], none⟩⟩]⟩,
          ⟨"Succeeded", none⟩⟩ : PodType)] "cpu" "n1" =
      requestsTotal [] "cpu" "n1" ∧
    nodeResourceUsage
        [(⟨⟨"p", "u", "ns"⟩, ⟨some "n1", [⟨some ⟨some [("cpu", "2")], none⟩⟩]⟩,
          ⟨"Succeeded", none⟩⟩ : PodType)] "cpu" =
      nodeResourceUsage [] "cpu" :=
  ⟨((claim_C6 [] []
      ⟨⟨"p", "u", "ns"⟩, ⟨some "n1", [⟨some ⟨some [("cpu", "2")], none⟩⟩]⟩,
        ⟨"Succeeded", none⟩⟩ (Or.inl rfl)).1 "cpu" "n1").1,
    (claim_C6 [] []
      ⟨⟨"p", "u", "ns"⟩, ⟨some "n1", [⟨some ⟨some [("cpu", "2")], none⟩⟩]⟩,
        ⟨"Succeeded", none⟩⟩ (Or.inl rfl)).2 "cpu"⟩

/-- C10: a pod whose container list is empty fails `isValidPod`, so it is
dropped by the valid-pod filter and contributes nothing to the aggregator's
output, even with all other fields present and a non-terminal phase. -/
theorem claim_C10 (pod : PodType) (h : pod.spec.containers = []) :
    isValidPod pod = false ∧
    (∀ pods1 pods2 : List PodType,
      (pods1 ++ pod :: pods2).filter isValidPod = (pods1 ++ pods2).filter isValidPod) ∧
    (∀ (pods1 pods2 : List PodType) (res : String),
      nodeResourceUsage (pods1 ++ pod :: pods2) res = nodeResourceUsage (pods1 ++ pods2) res) := by
  have hv : isValidPod pod = false := isValidPod_no_containers h
  exact ⟨hv, fun pods1 pods2 => filter_invalid_middle hv,
    fun pods1 pods2 res => nodeResourceUsage_invalid_middle hv res⟩

/-- C10 witness: a concrete `Running` pod with an empty container list is
invalid and invisible to the filter and the aggregator. -/
theorem claim_C10_witness :
    isValidPod (⟨⟨"p", "u", "ns"⟩, ⟨some "n1", []⟩, ⟨"Running", none⟩⟩ : PodType) = false ∧
    ([(⟨⟨"p", "u", "ns"⟩, ⟨some "n1", []⟩, ⟨"Running", none⟩⟩ : PodType)]).filter isValidPod =
      ([] : List PodType).filter isValidPod ∧
    nodeResourceUsage
        [(⟨⟨"p", "u", "ns"⟩, ⟨some "n1", []⟩, ⟨"Running", none⟩⟩ : PodType)] "cpu" =
      nodeResourceUsage [] "cpu" :=
  ⟨(claim_C10 ⟨⟨"p", "u", "ns"⟩, ⟨some "n1", []⟩, ⟨"Running", none⟩⟩ rfl).1,
    (claim_C10 ⟨⟨"p", "u", "ns"⟩, ⟨some "n1", []⟩, ⟨"Running", none⟩⟩ rfl).2.1 [] [],
    (claim_C10 ⟨⟨"p", "u", "ns"⟩, ⟨some "n1", []⟩, ⟨"Running", none⟩⟩ rfl).2.2 [] [] "cpu"⟩

/-! ## Claim C5 -/

theorem podOnNode_placed {pod : PodType} {n : String} (h : podOnNode pod n = true) :
    podPlaced pod = true := by
  unfold podOnNode at h
  unfold podPlaced
  cases hnn : pod.spec.nodeName with
  | none => rw [hnn] at h; cases h
  | some m =>
    rw [hnn] at h
    exact (Bool.and_eq_true_iff.mp h).1

theorem containerContribs_zero_of_not_mentions {res : String} {c : Container}
    (h : containerMentions res c = false) :
    containerRequestContrib res c = 0 ∧ containerLimitContrib res c = 0 := by
  unfold containerMentions at h
  unfold containerRequestContrib containerLimitContrib
  cases hres : c.resources with
  | none => simp
  | some rs =>
    rw [hres] at h
    have hboth := Bool.or_eq_false_iff.mp (by simpa using h)
    constructor
    · have h1 := hboth.1
      unfold mapHasValue at h1
      cases hm : rs.requests with
      | none => simp [hm]
      | some m =>
        rw [hm] at h1
        cases hl : m.lookup res with
        | none => simp [hm, hl]
        | some v =>
          have hv : v = "" := by simpa [hl] using h1
          simp [hm, hl, hv, parseResourceQuantity_empty]
    · have h1 := hboth.2
      unfold mapHasValue at h1
      cases hm : rs.limits with
      | none => simp [hm]
      | some m =>
        rw [hm] at h1
        cases hl : m.lookup res with
        | none => simp [hm, hl]
        | some v =>
          have hv : v = "" := by simpa [hl] using h1
          simp [hm, hl, hv, parseResourceQuantity_empty]

theorem totals_zero_of_unobserved {pods : List PodType} {res : String}
    (h : resourceObserved pods res = false) (n : String) :
    requestsTotal pods res n = 0 ∧ limitsTotal pods res n = 0 := by
  unfold resourceObserved at h
  rw [List.any_eq_false] at h
  constructor
  · unfold requestsTotal
    apply List.sum_eq_zero
    intro x hx
    obtain ⟨pod, hpod, rfl⟩ := List.mem_map.mp hx
    by_cases hon : podOnNode pod n = true
    · rw [if_pos hon]
      apply List.sum_eq_zero
      intro y hy
      obtain ⟨c, hc, rfl⟩ := List.mem_map.mp hy
      have hnp := h pod hpod
      rw [Bool.and_eq_true, not_and_or] at hnp
      rcases hnp with hnp | hnp
      · exact absurd (podOnNode_placed hon) hnp
      · rw [Bool.not_eq_true, List.any_eq_false] at hnp
        exact (containerContribs_zero_of_not_mentions
          (Bool.eq_false_iff.mpr (hnp c hc))).1
    · rw [if_neg hon]
  · unfold limitsTotal
    apply List.sum_eq_zero
    intro x hx
    obtain ⟨pod, hpod, rfl⟩ := List.mem_map.mp hx
    by_cases hon : podOnNode pod n = true
    · rw [if_pos hon]
      apply List.sum_eq_zero
      intro y hy
      obtain ⟨c, hc, rfl⟩ := List.mem_map.mp hy
      have hnp := h pod hpod
      rw [Bool.and_eq_true, not_and_or] at hnp
      rcases hnp with hnp | hnp
      · exact absurd (podOnNode_placed hon) hnp
      · rw [Bool.not_eq_true, List.any_eq_false] at hnp
        exact (containerContribs_zero_of_not_mentions
          (Bool.eq_false_iff.mpr (hnp c hc))).2
    · rw [if_neg hon]

/-- C5: the statistics deriver's per-node used value is the aggregated
requests total for that node, except that when the requests total is exactly
0 — including when the aggregator never created the resource key — it is the
aggregated limits total instead. -/
theorem claim_C5 (pods : List PodType) (res n : String) :
    nodeUsedValue (nodeResourceUsage pods) res n =
      if requestsTotal pods res n = 0 then limitsTotal pods res n
      else requestsTotal pods res n := by
  unfold nodeUsedValue nodeResourceUsage
  by_cases hobs : resourceObserved pods res = true
  · rw [if_pos hobs]
  · rw [if_neg hobs]
    obtain ⟨hr, hl⟩ :=
      totals_zero_of_unobserved (Bool.eq_false_iff.mpr hobs) n
    rw [hr, hl, if_pos rfl]

/-! ## Statistics lemmas (claims C3, C7, C8) -/

theorem filter_isValidNode (nodes : List NodeType) : nodes.filter isValidNode = nodes := by
  simp [isValidNode]

/-- C7: with zero valid nodes the statistics deriver returns the all-empty
record: total, used and percentage 0, no node entries, all six percentile
fields `null` and all ten distribution buckets 0. -/
theorem claim_C7 (nodes : List NodeType) (usage : String → Option ResourceUsage)
    (res : String) (h : nodes.filter isValidNode = []) :
    resourceStatsFor nodes usage res =
      { total := 0, used := 0, percentage := 0, nodePercentages := [],
        percentiles := ⟨none, none, none, none, none, none⟩,
        distribution := List.replicate 10 0 } := by
  unfold resourceStatsFor
  rw [h]
  simp [percentilesOf, getPercentile, distributionOf, sortByPctDesc]

/-- C7 witness: the empty-cluster statistics at the concrete resource name
`"cpu"` and the empty usage map. -/
theorem claim_C7_witness :
    resourceStatsFor [] (fun _ => none) "cpu" =
      { total := 0, used := 0, percentage := 0, nodePercentages := [],
        percentiles := ⟨none, none, none, none, none, none⟩,
        distribution := List.replicate 10 0 } :=
  claim_C7 [] (fun _ => none) "cpu" rfl

/-! ## Binary64 rounding lemmas -/

theorem roundNearestEven_intCast (z : ℤ) : roundNearestEven (z : ℚ) = z := by
  unfold roundNearestEven
  rw [Int.floor_intCast]
  rw [if_pos (by norm_num)]

theorem roundNearestEven_ge_floor (q : ℚ) : ⌊q⌋ ≤ roundNearestEven q := by
  unfold roundNearestEven
  split_ifs <;> omega

theorem roundNearestEven_le_floor_add_one (q : ℚ) : roundNearestEven q ≤ ⌊q⌋ + 1 := by
  unfold roundNearestEven
  split_ifs <;> omega

theorem roundNearestEven_eq_of_near (q : ℚ) (m : ℤ) (h : |q - m| < 1/2) :
    roundNearestEven q = m := by
  rw [abs_sub_lt_iff] at h
  obtain ⟨h1, h2⟩ := h
  by_cases hqm : (m : ℚ) ≤ q
  · have hfl : ⌊q⌋ = m := by
      rw [Int.floor_eq_iff]
      exact ⟨hqm, by linarith⟩
    unfold roundNearestEven
    rw [hfl, if_pos (by linarith)]
  · push_neg at hqm
    have hfl : ⌊q⌋ = m - 1 := by
      rw [Int.floor_eq_iff]
      constructor
      · push_cast
        linarith
      · push_cast
        linarith
    unfold roundNearestEven
    rw [hfl, if_neg (by push_cast; linarith), if_pos (by push_cast; linarith)]
    omega

theorem roundNearestEven_close (q : ℚ) : |(roundNearestEven q : ℚ) - q| ≤ 1/2 := by
  have h1 : (⌊q⌋ : ℚ) ≤ q := Int.floor_le q
  have h2 : q < ⌊q⌋ + 1 := Int.lt_floor_add_one q
  unfold roundNearestEven
  split_ifs with ha hb hc <;> rw [abs_sub_le_iff] <;> constructor <;> push_cast <;> linarith

theorem roundNearestEven_mono (q r : ℚ) (h : q ≤ r) :
    roundNearestEven q ≤ roundNearestEven r := by
  have hff : ⌊q⌋ ≤ ⌊r⌋ := Int.floor_le_floor h
  by_cases heq : ⌊q⌋ = ⌊r⌋
  · have hfr : q - (⌊r⌋ : ℚ) ≤ r - (⌊r⌋ : ℚ) := by linarith
    unfold roundNearestEven
    rw [heq]
    split_ifs <;> first | omega | linarith
  · have hle : roundNearestEven q ≤ ⌊q⌋ + 1 := roundNearestEven_le_floor_add_one q
    have hge : ⌊r⌋ ≤ roundNearestEven r := roundNearestEven_ge_floor r
    omega

theorem two_zpow_log_le {x : ℚ} (hx : 0 < x) : (2 : ℚ) ^ Int.log 2 x ≤ x := by
  exact_mod_cast Int.zpow_log_le_self (by norm_num) hx

theorem lt_two_zpow_log_succ (x : ℚ) : x < (2 : ℚ) ^ (Int.log 2 x + 1) := by
  exact_mod_cast Int.lt_zpow_succ_log_self (by norm_num) x

theorem log2_lt_of_lt {x : ℚ} (hx : 0 < x) {e : ℤ} (h : x < (2 : ℚ) ^ e) :
    Int.log 2 x < e := by
  exact (Int.lt_zpow_iff_log_lt (by norm_num) hx).mp (by exact_mod_cast h)

theorem le_log2_of_le {x : ℚ} (hx : 0 < x) {e : ℤ} (h : (2 : ℚ) ^ e ≤ x) :
    e ≤ Int.log 2 x := by
  exact (Int.zpow_le_iff_le_log (by norm_num) hx).mp (by exact_mod_cast h)

theorem fl_zero : fl 0 = 0 := by
  simp [fl]

theorem fl_of_pos {x : ℚ} (hx : 0 < x) :
    fl x = (roundNearestEven (x * (2 : ℚ) ^ (52 - Int.log 2 x)) : ℚ) *
      (2 : ℚ) ^ (Int.log 2 x - 52) := by
  unfold fl
  rw [if_neg (ne_of_gt hx), if_pos hx]

theorem two_zpow_53 : (2 : ℚ) ^ (53 : ℤ) = 2 ^ 53 := by
  norm_num

theorem two_zpow_52 : (2 : ℚ) ^ (52 : ℤ) = 2 ^ 52 := by
  norm_num

theorem fl_close {x : ℚ} (hx : 0 < x) : |fl x - x| ≤ x / 2 ^ 53 := by
  rw [fl_of_pos hx]
  set e := Int.log 2 x with he
  set q := x * (2 : ℚ) ^ (52 - e) with hqdef
  have h2 : (2 : ℚ) ≠ 0 := by norm_num
  have hg : (0 : ℚ) < (2 : ℚ) ^ (e - 52) := by positivity
  have hx2 : x = q * (2 : ℚ) ^ (e - 52) := by
    rw [hqdef, mul_assoc, ← zpow_add₀ h2]
    norm_num
  have hrw : (roundNearestEven q : ℚ) * (2 : ℚ) ^ (e - 52) - x =
      ((roundNearestEven q : ℚ) - q) * (2 : ℚ) ^ (e - 52) := by
    rw [sub_mul, ← hx2]
  rw [hrw, abs_mul, abs_of_pos hg]
  refine le_trans (mul_le_mul_of_nonneg_right (roundNearestEven_close q) (le_of_lt hg)) ?_
  have hle : (2 : ℚ) ^ e ≤ x := by
    rw [he]
    exact two_zpow_log_le hx
  have hpos53 : (0 : ℚ) < (2 : ℚ) ^ (-53 : ℤ) := by positivity
  have h1 : (1 / 2 : ℚ) * (2 : ℚ) ^ (e - 52) = (2 : ℚ) ^ e * (2 : ℚ) ^ (-53 : ℤ) := by
    rw [← zpow_add₀ h2, show e + (-53) = (-1) + (e - 52) by ring, zpow_add₀ h2]
    norm_num
  rw [h1]
  have h3 : (2 : ℚ) ^ e * (2 : ℚ) ^ (-53 : ℤ) ≤ x * (2 : ℚ) ^ (-53 : ℤ) :=
    mul_le_mul_of_nonneg_right hle (le_of_lt hpos53)
  refine le_trans h3 (le_of_eq ?_)
  rw [div_eq_mul_inv]
  congr 1
  rw [zpow_neg, two_zpow_53]

theorem fl_le {x : ℚ} (hx : 0 ≤ x) : fl x ≤ x + x / 2 ^ 53 := by
  rcases hx.eq_or_lt with h | h
  · rw [← h, fl_zero]
    norm_num
  · have := (abs_sub_le_iff.mp (fl_close h)).1
    linarith

theorem fl_ge {x : ℚ} (hx : 0 ≤ x) : x - x / 2 ^ 53 ≤ fl x := by
  rcases hx.eq_or_lt with h | h
  · rw [← h, fl_zero]
    norm_num
  · have := (abs_sub_le_iff.mp (fl_close h)).2
    linarith

theorem fl_nonneg {x : ℚ} (hx : 0 ≤ x) : 0 ≤ fl x := by
  have h1 := fl_ge hx
  have h2 : x / 2 ^ 53 ≤ x := div_le_self hx (by norm_num)
  linarith

theorem fl_mono {x y : ℚ} (hx : 0 ≤ x) (hxy : x ≤ y) : fl x ≤ fl y := by
  have h2 : (2 : ℚ) ≠ 0 := by norm_num
  rcases hx.eq_or_lt with h | hxpos
  · rw [← h, fl_zero]
    exact fl_nonneg (le_trans hx hxy)
  · have hypos : 0 < y := lt_of_lt_of_le hxpos hxy
    have hlog : Int.log 2 x ≤ Int.log 2 y := Int.log_mono_right hxpos hxy
    rcases eq_or_lt_of_le hlog with heq | hlt
    · rw [fl_of_pos hxpos, fl_of_pos hypos, ← heq]
      have hqle : x * (2 : ℚ) ^ (52 - Int.log 2 x) ≤ y * (2 : ℚ) ^ (52 - Int.log 2 x) :=
        mul_le_mul_of_nonneg_right hxy (by positivity)
      have hr : ((roundNearestEven (x * (2 : ℚ) ^ (52 - Int.log 2 x))) : ℚ) ≤
          ((roundNearestEven (y * (2 : ℚ) ^ (52 - Int.log 2 x))) : ℚ) := by
        exact_mod_cast roundNearestEven_mono _ _ hqle
      exact mul_le_mul_of_nonneg_right hr (by positivity)
    · have hfx : fl x ≤ (2 : ℚ) ^ (Int.log 2 x + 1) := by
        rw [fl_of_pos hxpos]
        set e := Int.log 2 x with he
        have hxlt : x < (2 : ℚ) ^ (e + 1) := by
          rw [he]
          exact lt_two_zpow_log_succ x
        have hq : x * (2 : ℚ) ^ (52 - e) < (2 : ℚ) ^ (53 : ℤ) := by
          calc x * (2 : ℚ) ^ (52 - e) < (2 : ℚ) ^ (e + 1) * (2 : ℚ) ^ (52 - e) :=
                mul_lt_mul_of_pos_right hxlt (by positivity)
            _ = (2 : ℚ) ^ (53 : ℤ) := by
                rw [← zpow_add₀ h2]
                congr 1
                ring
        have hfloor : ⌊x * (2 : ℚ) ^ (52 - e)⌋ < 2 ^ 53 := by
          rw [Int.floor_lt]
          rw [two_zpow_53] at hq
          exact_mod_cast hq
        have hrne : roundNearestEven (x * (2 : ℚ) ^ (52 - e)) ≤ 2 ^ 53 := by
          have := roundNearestEven_le_floor_add_one (x * (2 : ℚ) ^ (52 - e))
          omega
        calc (roundNearestEven (x * (2 : ℚ) ^ (52 - e)) : ℚ) * (2 : ℚ) ^ (e - 52)
            ≤ (2 : ℚ) ^ (53 : ℤ) * (2 : ℚ) ^ (e - 52) := by
              apply mul_le_mul_of_nonneg_right _ (by positivity)
              rw [two_zpow_53]
              exact_mod_cast hrne
          _ = (2 : ℚ) ^ (e + 1) := by
              rw [← zpow_add₀ h2]
              congr 1
              ring
      have hfy : (2 : ℚ) ^ (Int.log 2 y) ≤ fl y := by
        rw [fl_of_pos hypos]
        set e := Int.log 2 y with he
        have hyge : (2 : ℚ) ^ e ≤ y := by
          rw [he]
          exact two_zpow_log_le hypos
        have hq : (2 : ℚ) ^ (52 : ℤ) ≤ y * (2 : ℚ) ^ (52 - e) := by
          calc (2 : ℚ) ^ (52 : ℤ) = (2 : ℚ) ^ e * (2 : ℚ) ^ (52 - e) := by
                rw [← zpow_add₀ h2]
                congr 1
                ring
            _ ≤ y * (2 : ℚ) ^ (52 - e) :=
                mul_le_mul_of_nonneg_right hyge (by positivity)
        have hfloor : (2 ^ 52 : ℤ) ≤ ⌊y * (2 : ℚ) ^ (52 - e)⌋ := by
          rw [Int.le_floor]
          rw [two_zpow_52] at hq
          exact_mod_cast hq
        have hrne : (2 ^ 52 : ℤ) ≤ roundNearestEven (y * (2 : ℚ) ^ (52 - e)) :=
          le_trans hfloor (roundNearestEven_ge_floor _)
        calc (2 : ℚ) ^ e = (2 : ℚ) ^ (52 : ℤ) * (2 : ℚ) ^ (e - 52) := by
              rw [← zpow_add₀ h2]
              congr 1
              ring
          _ ≤ (roundNearestEven (y * (2 : ℚ) ^ (52 - e)) : ℚ) * (2 : ℚ) ^ (e - 52) := by
              apply mul_le_mul_of_nonneg_right _ (by positivity)
              rw [two_zpow_52]
              exact_mod_cast hrne
      have hmid : (2 : ℚ) ^ (Int.log 2 x + 1) ≤ (2 : ℚ) ^ (Int.log 2 y) :=
        zpow_le_zpow_right₀ (by norm_num) (by omega)
      linarith

theorem fl_eval_near (c : ℚ) (e m : ℤ) (h1 : (2 : ℚ) ^ e ≤ c) (h2 : c < (2 : ℚ) ^ (e + 1))
    (hm : |c * (2 : ℚ) ^ (52 - e) - m| < 1/2) : fl c = (m : ℚ) * (2 : ℚ) ^ (e - 52) := by
  have hc : 0 < c := lt_of_lt_of_le (by positivity) h1
  have hlog : Int.log 2 c = e := by
    have hu := log2_lt_of_lt hc h2
    have hl := le_log2_of_le hc h1
    omega
  rw [fl_of_pos hc, hlog, roundNearestEven_eq_of_near _ m hm]

theorem fl_mul_zpow_eq_self (m t : ℤ) (h0 : 0 < m) (h1 : m < 2 ^ 53) :
    fl ((m : ℚ) * (2 : ℚ) ^ t) = (m : ℚ) * (2 : ℚ) ^ t := by
  have h2q : (2 : ℚ) ≠ 0 := by norm_num
  have hx : 0 < (m : ℚ) * (2 : ℚ) ^ t :=
    mul_pos (by exact_mod_cast h0) (by positivity)
  have hub : (m : ℚ) * (2 : ℚ) ^ t < (2 : ℚ) ^ (t + 53) := by
    have hm53 : (m : ℚ) < (2 : ℚ) ^ (53 : ℤ) := by
      rw [two_zpow_53]
      exact_mod_cast h1
    calc (m : ℚ) * (2 : ℚ) ^ t < (2 : ℚ) ^ (53 : ℤ) * (2 : ℚ) ^ t :=
          mul_lt_mul_of_pos_right hm53 (by positivity)
      _ = (2 : ℚ) ^ (t + 53) := by
          rw [← zpow_add₀ h2q]
          congr 1
          ring
  set e := Int.log 2 ((m : ℚ) * (2 : ℚ) ^ t) with he
  have helog : e ≤ t + 52 := by
    have hlt := log2_lt_of_lt hx hub
    rw [← he] at hlt
    omega
  obtain ⟨N, hN⟩ : ∃ N : ℕ, (N : ℤ) = t + 52 - e :=
    ⟨(t + 52 - e).toNat, Int.toNat_of_nonneg (by omega)⟩
  have hq : (m : ℚ) * (2 : ℚ) ^ t * (2 : ℚ) ^ (52 - e) = ((m * 2 ^ N : ℤ) : ℚ) := by
    push_cast
    rw [mul_assoc, ← zpow_add₀ h2q]
    congr 1
    rw [show t + (52 - e) = ((N : ℤ)) by omega]
    exact zpow_natCast 2 N
  rw [fl_of_pos hx, ← he, hq, roundNearestEven_intCast]
  push_cast
  rw [mul_assoc, ← zpow_natCast (2 : ℚ) N, ← zpow_add₀ h2q]
  rw [show (N : ℤ) + (e - 52) = t by omega]

theorem fl_eq_int_of_close (j : ℤ) {y : ℚ} (hj : 0 < j) (h1 : (j : ℚ) ≤ y)
    (h2 : y < 2 ^ 53) (h3 : y - j ≤ y / 2 ^ 54) : fl y = j := by
  have h2q : (2 : ℚ) ≠ 0 := by norm_num
  have hy : 0 < y := lt_of_lt_of_le (by exact_mod_cast hj) h1
  set e := Int.log 2 y with he
  have heu : y < (2 : ℚ) ^ (e + 1) := by
    rw [he]
    exact lt_two_zpow_log_succ y
  have he52 : e ≤ 52 := by
    have h53 : y < (2 : ℚ) ^ (53 : ℤ) := by
      rw [two_zpow_53]
      exact h2
    have := log2_lt_of_lt hy h53
    rw [← he] at this
    omega
  obtain ⟨N, hN⟩ : ∃ N : ℕ, (N : ℤ) = 52 - e :=
    ⟨(52 - e).toNat, Int.toNat_of_nonneg (by omega)⟩
  have hqpos : (0 : ℚ) < (2 : ℚ) ^ (52 - e) := by positivity
  have hjq : ((j * 2 ^ N : ℤ) : ℚ) = (j : ℚ) * (2 : ℚ) ^ (52 - e) := by
    push_cast
    rw [← zpow_natCast (2 : ℚ) N, hN]
  have hqlt : y * (2 : ℚ) ^ (52 - e) < (2 : ℚ) ^ (53 : ℤ) := by
    calc y * (2 : ℚ) ^ (52 - e) < (2 : ℚ) ^ (e + 1) * (2 : ℚ) ^ (52 - e) :=
          mul_lt_mul_of_pos_right heu hqpos
      _ = (2 : ℚ) ^ (53 : ℤ) := by
          rw [← zpow_add₀ h2q]
          congr 1
          ring
  have hnear : |y * (2 : ℚ) ^ (52 - e) - ((j * 2 ^ N : ℤ) : ℚ)| < 1/2 := by
    rw [hjq, ← sub_mul]
    rw [abs_of_nonneg (mul_nonneg (by linarith) (le_of_lt hqpos))]
    calc (y - j) * (2 : ℚ) ^ (52 - e) ≤ (y / 2 ^ 54) * (2 : ℚ) ^ (52 - e) :=
          mul_le_mul_of_nonneg_right h3 (le_of_lt hqpos)
      _ = y * (2 : ℚ) ^ (52 - e) / 2 ^ 54 := by ring
      _ < (2 : ℚ) ^ (53 : ℤ) / 2 ^ 54 := by gcongr
      _ = 1/2 := by
          rw [two_zpow_53]
          norm_num
  have hrne : roundNearestEven (y * (2 : ℚ) ^ (52 - e)) = j * 2 ^ N :=
    roundNearestEven_eq_of_near _ _ hnear
  rw [fl_of_pos hy, ← he, hrne]
  push_cast
  rw [mul_assoc, ← zpow_natCast (2 : ℚ) N, ← zpow_add₀ h2q]
  rw [show (N : ℤ) + (e - 52) = 0 by omega, zpow_zero, mul_one]

/-! ## Binary64 values of the selector constants

The four `getPercentile` call sites use `p = 99, 90, 50, 10`; the binary64
value of `1 - p/100` is exactly `1/100 + 1/(25 * 2^52)` at `p = 99` (slightly
above `1/100`), `1/10 - 1/(5 * 2^53)` at `p = 90`, exactly `1/2` at `p = 50`
and `9/10 + 1/(5 * 2^53)` at `p = 10`. -/

theorem fl_one : fl 1 = 1 := by
  have h := fl_eval_near 1 0 4503599627370496 (by norm_num) (by norm_num)
    (by rw [abs_lt]; constructor <;> norm_num)
  rw [h]
  norm_num

theorem fl_p99 : fl (99 / 100) = 8917127262193582 / 2 ^ 53 := by
  have h := fl_eval_near (99 / 100) (-1) 8917127262193582 (by norm_num) (by norm_num)
    (by rw [abs_lt]; constructor <;> norm_num)
  rw [h]
  norm_num

theorem fl_d99 : fl (1 - fl (99 / 100)) = 45035996273705 / 2 ^ 52 := by
  rw [fl_p99, show (1 : ℚ) - 8917127262193582 / 2 ^ 53 = 45035996273705 / 2 ^ 52 by norm_num]
  have h := fl_eval_near (45035996273705 / 2 ^ 52) (-7) 5764607523034240 (by norm_num)
    (by norm_num) (by rw [abs_lt]; constructor <;> norm_num)
  rw [h]
  norm_num

theorem fl_p90 : fl (90 / 100) = 8106479329266893 / 2 ^ 53 := by
  have h := fl_eval_near (90 / 100) (-1) 8106479329266893 (by norm_num) (by norm_num)
    (by rw [abs_lt]; constructor <;> norm_num)
  rw [h]
  norm_num

theorem fl_d90 : fl (1 - fl (90 / 100)) = 900719925474099 / 2 ^ 53 := by
  rw [fl_p90, show (1 : ℚ) - 8106479329266893 / 2 ^ 53 = 900719925474099 / 2 ^ 53 by norm_num]
  have h := fl_eval_near (900719925474099 / 2 ^ 53) (-4) 7205759403792792 (by norm_num)
    (by norm_num) (by rw [abs_lt]; constructor <;> norm_num)
  rw [h]
  norm_num

theorem fl_d50 : fl (1 - fl (50 / 100)) = 1 / 2 := by
  have h12 : fl (1 / 2 : ℚ) = 1 / 2 := by
    have h := fl_eval_near (1 / 2) (-1) 4503599627370496 (by norm_num) (by norm_num)
      (by rw [abs_lt]; constructor <;> norm_num)
    rw [h]
    norm_num
  rw [show ((50 : ℚ) / 100) = 1 / 2 by norm_num, h12,
    show (1 : ℚ) - 1 / 2 = 1 / 2 by norm_num, h12]

theorem fl_p10 : fl (10 / 100) = 7205759403792794 / 2 ^ 56 := by
  have h := fl_eval_near (10 / 100) (-4) 7205759403792794 (by norm_num) (by norm_num)
    (by rw [abs_lt]; constructor <;> norm_num)
  rw [h]
  norm_num

theorem fl_d10 : fl (1 - fl (10 / 100)) = 8106479329266893 / 2 ^ 53 := by
  rw [fl_p10, show (1 : ℚ) - 7205759403792794 / 2 ^ 56 = 32425917317067571 / 2 ^ 55 by norm_num]
  have h := fl_eval_near (32425917317067571 / 2 ^ 55) (-1) 8106479329266893 (by norm_num)
    (by norm_num) (by rw [abs_lt]; constructor <;> norm_num)
  rw [h]
  norm_num

theorem fl_d100 : fl (1 - fl (100 / 100)) = 0 := by
  rw [show ((100 : ℚ) / 100) = 1 by norm_num, fl_one, sub_self, fl_zero]

theorem fl_d0 : fl (1 - fl (0 / 100)) = 1 := by
  rw [show ((0 : ℚ) / 100) = 0 by norm_num, fl_zero, sub_zero, fl_one]

/-! ## The selected index, percentile by percentile -/

theorem ceil_fl_half (k : ℕ) (hk : k ≤ 2 ^ 32) :
    ⌈fl ((k : ℚ) * (1 / 2))⌉ = ⌈(k : ℚ) * (1 - 50 / 100)⌉ := by
  rcases Nat.eq_zero_or_pos k with h0 | hpos
  · subst h0
    norm_num [fl_zero]
  · have h := fl_mul_zpow_eq_self (k : ℤ) (-1) (by exact_mod_cast hpos) (by omega)
    push_cast at h
    rw [show ((2 : ℚ) ^ (-1 : ℤ)) = 1 / 2 by norm_num] at h
    rw [h, show (1 : ℚ) - 50 / 100 = 1 / 2 by norm_num]

theorem ceil_fl_d90 (k : ℕ) (hk : k ≤ 2 ^ 32) :
    ⌈fl ((k : ℚ) * (900719925474099 / 2 ^ 53))⌉ = ⌈(k : ℚ) * (1 - 90 / 100)⌉ := by
  rw [show (1 : ℚ) - 90 / 100 = 1 / 10 by norm_num, mul_one_div]
  rcases Nat.eq_zero_or_pos k with h0 | hpos
  · subst h0
    norm_num [fl_zero]
  have hkb : (k : ℚ) ≤ 2 ^ 32 := by exact_mod_cast hk
  have hk0 : (0 : ℚ) ≤ (k : ℚ) := Nat.cast_nonneg k
  have hy0 : (0 : ℚ) ≤ (k : ℚ) * (900719925474099 / 2 ^ 53) := by positivity
  have hup := fl_le hy0
  have hlo := fl_ge hy0
  have hJ1 : (k : ℚ) / 10 ≤ (⌈(k : ℚ) / 10⌉ : ℚ) := Int.le_ceil _
  have hJ2 : (⌈(k : ℚ) / 10⌉ : ℚ) - 9 / 10 ≤ (k : ℚ) / 10 := by
    have hq := Int.ceil_lt_add_one ((k : ℚ) / 10)
    have h2 : 10 * ⌈(k : ℚ) / 10⌉ < (k : ℤ) + 10 := by
      have : ((10 * ⌈(k : ℚ) / 10⌉ : ℤ) : ℚ) < (((k : ℤ) + 10 : ℤ) : ℚ) := by
        push_cast
        linarith
      exact_mod_cast this
    have h3 : ((10 * ⌈(k : ℚ) / 10⌉ : ℤ) : ℚ) ≤ (((k : ℤ) + 9 : ℤ) : ℚ) := by
      exact_mod_cast by omega
    push_cast at h3
    linarith
  have hupJ : fl ((k : ℚ) * (900719925474099 / 2 ^ 53)) ≤ (⌈(k : ℚ) / 10⌉ : ℚ) := by
    have hyk : (k : ℚ) * (900719925474099 / 2 ^ 53) +
        ((k : ℚ) * (900719925474099 / 2 ^ 53)) / 2 ^ 53 ≤ (k : ℚ) / 10 := by
      have hc : (900719925474099 / 2 ^ 53 : ℚ) + (900719925474099 / 2 ^ 53) / 2 ^ 53 ≤
          1 / 10 := by norm_num
      calc (k : ℚ) * (900719925474099 / 2 ^ 53) +
            ((k : ℚ) * (900719925474099 / 2 ^ 53)) / 2 ^ 53
          = (k : ℚ) * ((900719925474099 / 2 ^ 53) + (900719925474099 / 2 ^ 53) / 2 ^ 53) := by
            ring
        _ ≤ (k : ℚ) * (1 / 10) := mul_le_mul_of_nonneg_left hc hk0
        _ = (k : ℚ) / 10 := by ring
    linarith
  have hloJ : (⌈(k : ℚ) / 10⌉ : ℚ) - 1 < fl ((k : ℚ) * (900719925474099 / 2 ^ 53)) := by
    have hdel : (k : ℚ) / 10 - ((k : ℚ) * (900719925474099 / 2 ^ 53) -
        ((k : ℚ) * (900719925474099 / 2 ^ 53)) / 2 ^ 53) < 1 / 10 := by
      have heq : (k : ℚ) / 10 - ((k : ℚ) * (900719925474099 / 2 ^ 53) -
          ((k : ℚ) * (900719925474099 / 2 ^ 53)) / 2 ^ 53) =
          (k : ℚ) * (1 / 10 - 900719925474099 / 2 ^ 53 +
            (900719925474099 / 2 ^ 53) / 2 ^ 53) := by
        ring
      rw [heq]
      calc (k : ℚ) * (1 / 10 - 900719925474099 / 2 ^ 53 +
            (900719925474099 / 2 ^ 53) / 2 ^ 53)
          ≤ (2 ^ 32 : ℚ) * (1 / 10 - 900719925474099 / 2 ^ 53 +
            (900719925474099 / 2 ^ 53) / 2 ^ 53) :=
            mul_le_mul_of_nonneg_right hkb (by norm_num)
        _ < 1 / 10 := by norm_num
    linarith
  exact Int.ceil_eq_iff.mpr ⟨hloJ, hupJ⟩

theorem ceil_fl_d10 (k : ℕ) (hk : k ≤ 2 ^ 32) :
    ⌈fl ((k : ℚ) * (8106479329266893 / 2 ^ 53))⌉ = ⌈(k : ℚ) * (1 - 10 / 100)⌉ := by
  rw [show (1 : ℚ) - 10 / 100 = 9 / 10 by norm_num]
  rcases Nat.eq_zero_or_pos k with h0 | hpos
  · subst h0
    norm_num [fl_zero]
  have hkb : (k : ℚ) ≤ 2 ^ 32 := by exact_mod_cast hk
  have hloJ : (⌈(k : ℚ) * (9 / 10)⌉ : ℚ) - 1 <
      fl ((k : ℚ) * (8106479329266893 / 2 ^ 53)) := by
    have hy0 : (0 : ℚ) ≤ (k : ℚ) * (8106479329266893 / 2 ^ 53) := by positivity
    have hlo := fl_ge hy0
    have hq := Int.ceil_lt_add_one ((k : ℚ) * (9 / 10))
    have h2 : 10 * ⌈(k : ℚ) * (9 / 10)⌉ < 9 * (k : ℤ) + 10 := by
      have : ((10 * ⌈(k : ℚ) * (9 / 10)⌉ : ℤ) : ℚ) < ((9 * (k : ℤ) + 10 : ℤ) : ℚ) := by
        push_cast
        linarith
      exact_mod_cast this
    have hJ2 : ((10 * ⌈(k : ℚ) * (9 / 10)⌉ : ℤ) : ℚ) ≤ ((9 * (k : ℤ) + 9 : ℤ) : ℚ) := by
      exact_mod_cast by omega
    push_cast at hJ2
    have heq : (k : ℚ) * (9 / 10) - ((k : ℚ) * (8106479329266893 / 2 ^ 53) -
        ((k : ℚ) * (8106479329266893 / 2 ^ 53)) / 2 ^ 53) =
        (k : ℚ) * (9 / 10 - 8106479329266893 / 2 ^ 53 +
          (8106479329266893 / 2 ^ 53) / 2 ^ 53) := by
      ring
    have hdel : (k : ℚ) * (9 / 10 - 8106479329266893 / 2 ^ 53 +
        (8106479329266893 / 2 ^ 53) / 2 ^ 53) < 1 / 10 := by
      calc (k : ℚ) * (9 / 10 - 8106479329266893 / 2 ^ 53 +
            (8106479329266893 / 2 ^ 53) / 2 ^ 53)
          ≤ (2 ^ 32 : ℚ) * (9 / 10 - 8106479329266893 / 2 ^ 53 +
            (8106479329266893 / 2 ^ 53) / 2 ^ 53) :=
            mul_le_mul_of_nonneg_right hkb (by norm_num)
        _ < 1 / 10 := by norm_num
    linarith
  have hupJ : fl ((k : ℚ) * (8106479329266893 / 2 ^ 53)) ≤ (⌈(k : ℚ) * (9 / 10)⌉ : ℚ) := by
    by_cases hdvd : 10 ∣ k
    · obtain ⟨t, ht⟩ := hdvd
      have ht1 : 1 ≤ t := by omega
      have hkq : (k : ℚ) = 10 * (t : ℚ) := by exact_mod_cast ht
      have hconst : (10 : ℚ) * (8106479329266893 / 2 ^ 53) - 9 - 1 / 2 ^ 52 = 0 := by
        norm_num
      have hy9 : (k : ℚ) * (8106479329266893 / 2 ^ 53) - 9 * (t : ℚ) = (t : ℚ) / 2 ^ 52 := by
        rw [hkq]
        linear_combination (t : ℚ) * hconst
      have ht0 : (0 : ℚ) ≤ (t : ℚ) := Nat.cast_nonneg t
      have h1 : ((9 * (t : ℤ) : ℤ) : ℚ) ≤ (k : ℚ) * (8106479329266893 / 2 ^ 53) := by
        push_cast
        have h5 : (0 : ℚ) ≤ (t : ℚ) / 2 ^ 52 := by positivity
        linarith
      have h2 : (k : ℚ) * (8106479329266893 / 2 ^ 53) < 2 ^ 53 := by
        calc (k : ℚ) * (8106479329266893 / 2 ^ 53)
            ≤ (2 ^ 32 : ℚ) * (8106479329266893 / 2 ^ 53) :=
              mul_le_mul_of_nonneg_right hkb (by norm_num)
          _ < 2 ^ 53 := by norm_num
      have h3 : (k : ℚ) * (8106479329266893 / 2 ^ 53) - ((9 * (t : ℤ) : ℤ) : ℚ) ≤
          ((k : ℚ) * (8106479329266893 / 2 ^ 53)) / 2 ^ 54 := by
        push_cast
        push_cast at h1
        linarith
      have hfl := fl_eq_int_of_close (9 * (t : ℤ)) (by omega) h1 h2 h3
      have hceil : ⌈(k : ℚ) * (9 / 10)⌉ = 9 * (t : ℤ) := by
        rw [hkq, show (10 : ℚ) * (t : ℚ) * (9 / 10) = ((9 * (t : ℤ) : ℤ) : ℚ) by
          push_cast; ring]
        exact Int.ceil_intCast _
      rw [hfl, hceil]
    · have hnd : ¬((10 : ℤ) ∣ (k : ℤ)) := by exact_mod_cast hdvd
      have hy0 : (0 : ℚ) ≤ (k : ℚ) * (8106479329266893 / 2 ^ 53) := by positivity
      have hup := fl_le hy0
      have hJ1 : (k : ℚ) * (9 / 10) ≤ (⌈(k : ℚ) * (9 / 10)⌉ : ℚ) := Int.le_ceil _
      have h9k : 9 * (k : ℤ) ≤ 10 * ⌈(k : ℚ) * (9 / 10)⌉ := by
        have : ((9 * (k : ℤ) : ℤ) : ℚ) ≤ ((10 * ⌈(k : ℚ) * (9 / 10)⌉ : ℤ) : ℚ) := by
          push_cast
          linarith
        exact_mod_cast this
      have hstrict : 9 * (k : ℤ) + 1 ≤ 10 * ⌈(k : ℚ) * (9 / 10)⌉ := by omega
      have hJle : (k : ℚ) * (9 / 10) ≤ (⌈(k : ℚ) * (9 / 10)⌉ : ℚ) - 1 / 10 := by
        have : ((9 * (k : ℤ) + 1 : ℤ) : ℚ) ≤ ((10 * ⌈(k : ℚ) * (9 / 10)⌉ : ℤ) : ℚ) := by
          exact_mod_cast hstrict
        push_cast at this
        linarith
      have hδ : (k : ℚ) * (8106479329266893 / 2 ^ 53 +
          (8106479329266893 / 2 ^ 53) / 2 ^ 53 - 9 / 10) < 1 / 10 := by
        calc (k : ℚ) * (8106479329266893 / 2 ^ 53 +
              (8106479329266893 / 2 ^ 53) / 2 ^ 53 - 9 / 10)
            ≤ (2 ^ 32 : ℚ) * (8106479329266893 / 2 ^ 53 +
              (8106479329266893 / 2 ^ 53) / 2 ^ 53 - 9 / 10) :=
              mul_le_mul_of_nonneg_right hkb (by norm_num)
          _ < 1 / 10 := by norm_num
      have hsum : (k : ℚ) * (8106479329266893 / 2 ^ 53) +
          ((k : ℚ) * (8106479329266893 / 2 ^ 53)) / 2 ^ 53 -
          (k : ℚ) * (9 / 10) = (k : ℚ) * (8106479329266893 / 2 ^ 53 +
            (8106479329266893 / 2 ^ 53) / 2 ^ 53 - 9 / 10) := by
        ring
      linarith
  exact Int.ceil_eq_iff.mpr ⟨hloJ, hupJ⟩

theorem ceil_fl_d99_not_dvd (k : ℕ) (hk : k ≤ 2 ^ 32) (hnd : ¬(100 ∣ k)) :
    ⌈fl ((k : ℚ) * (45035996273705 / 2 ^ 52))⌉ = ⌈(k : ℚ) * (1 - 99 / 100)⌉ := by
  rw [show (1 : ℚ) - 99 / 100 = 1 / 100 by norm_num, mul_one_div]
  have hpos : 1 ≤ k := by
    rcases Nat.eq_zero_or_pos k with h0 | h1
    · exact absurd (h0 ▸ dvd_zero 100) hnd
    · exact h1
  have hkb : (k : ℚ) ≤ 2 ^ 32 := by exact_mod_cast hk
  have hk0 : (0 : ℚ) ≤ (k : ℚ) := Nat.cast_nonneg k
  have hy0 : (0 : ℚ) ≤ (k : ℚ) * (45035996273705 / 2 ^ 52) := by positivity
  have hup := fl_le hy0
  have hlo := fl_ge hy0
  have hnd2 : ¬((100 : ℤ) ∣ (k : ℤ)) := by exact_mod_cast hnd
  have hJ1 : (k : ℚ) / 100 ≤ (⌈(k : ℚ) / 100⌉ : ℚ) := Int.le_ceil _
  have h100k : (k : ℤ) ≤ 100 * ⌈(k : ℚ) / 100⌉ := by
    have : (((k : ℤ) : ℤ) : ℚ) ≤ ((100 * ⌈(k : ℚ) / 100⌉ : ℤ) : ℚ) := by
      push_cast
      linarith
    exact_mod_cast this
  have hupper : (k : ℤ) + 1 ≤ 100 * ⌈(k : ℚ) / 100⌉ := by omega
  have hJup : (k : ℚ) / 100 ≤ (⌈(k : ℚ) / 100⌉ : ℚ) - 1 / 100 := by
    have : (((k : ℤ) + 1 : ℤ) : ℚ) ≤ ((100 * ⌈(k : ℚ) / 100⌉ : ℤ) : ℚ) := by
      exact_mod_cast hupper
    push_cast at this
    linarith
  have hJlo : (⌈(k : ℚ) / 100⌉ : ℚ) - 1 + 1 / 100 ≤ (k : ℚ) / 100 := by
    have hq := Int.ceil_lt_add_one ((k : ℚ) / 100)
    have h2 : 100 * (⌈(k : ℚ) / 100⌉ - 1) < (k : ℤ) := by
      have : ((100 * (⌈(k : ℚ) / 100⌉ - 1) : ℤ) : ℚ) < (((k : ℤ) : ℤ) : ℚ) := by
        push_cast
        linarith
      exact_mod_cast this
    have h3 : ((100 * (⌈(k : ℚ) / 100⌉ - 1) + 1 : ℤ) : ℚ) ≤ (((k : ℤ) : ℤ) : ℚ) := by
      exact_mod_cast by omega
    push_cast at h3
    linarith
  have hupJ : fl ((k : ℚ) * (45035996273705 / 2 ^ 52)) ≤ (⌈(k : ℚ) / 100⌉ : ℚ) := by
    have hδ : (k : ℚ) * (45035996273705 / 2 ^ 52 +
        (45035996273705 / 2 ^ 52) / 2 ^ 53 - 1 / 100) < 1 / 100 := by
      calc (k : ℚ) * (45035996273705 / 2 ^ 52 +
            (45035996273705 / 2 ^ 52) / 2 ^ 53 - 1 / 100)
          ≤ (2 ^ 32 : ℚ) * (45035996273705 / 2 ^ 52 +
            (45035996273705 / 2 ^ 52) / 2 ^ 53 - 1 / 100) :=
            mul_le_mul_of_nonneg_right hkb (by norm_num)
        _ < 1 / 100 := by norm_num
    have hsum : (k : ℚ) * (45035996273705 / 2 ^ 52) +
        ((k : ℚ) * (45035996273705 / 2 ^ 52)) / 2 ^ 53 - (k : ℚ) / 100 =
        (k : ℚ) * (45035996273705 / 2 ^ 52 +
          (45035996273705 / 2 ^ 52) / 2 ^ 53 - 1 / 100) := by
      ring
    linarith
  have hloJ : (⌈(k : ℚ) / 100⌉ : ℚ) - 1 < fl ((k : ℚ) * (45035996273705 / 2 ^ 52)) := by
    have hmono : (k : ℚ) * (1 / 100) ≤
        (k : ℚ) * (45035996273705 / 2 ^ 52 - (45035996273705 / 2 ^ 52) / 2 ^ 53) :=
      mul_le_mul_of_nonneg_left (by norm_num) hk0
    have hsum : (k : ℚ) * (45035996273705 / 2 ^ 52) -
        ((k : ℚ) * (45035996273705 / 2 ^ 52)) / 2 ^ 53 =
        (k : ℚ) * (45035996273705 / 2 ^ 52 - (45035996273705 / 2 ^ 52) / 2 ^ 53) := by
      ring
    have hk100 : (k : ℚ) * (1 / 100) = (k : ℚ) / 100 := by ring
    linarith
  exact Int.ceil_eq_iff.mpr ⟨hloJ, hupJ⟩

theorem ceil_fl_d99_dvd (t : ℕ) (ht1 : 1 ≤ t) (ht : t ≤ 2 ^ 26) :
    ⌈fl ((100 * (t : ℚ)) * (45035996273705 / 2 ^ 52))⌉ = (t : ℤ) + 1 := by
  have htb : (t : ℚ) ≤ 2 ^ 26 := by exact_mod_cast ht
  have ht0 : (1 : ℚ) ≤ (t : ℚ) := by exact_mod_cast ht1
  have hconst : (100 : ℚ) * (45035996273705 / 2 ^ 52) - 1 - 1 / 2 ^ 50 = 0 := by
    norm_num
  have hy1 : (100 * (t : ℚ)) * (45035996273705 / 2 ^ 52) = (t : ℚ) + (t : ℚ) / 2 ^ 50 := by
    linear_combination (t : ℚ) * hconst
  have hy0 : (0 : ℚ) ≤ (100 * (t : ℚ)) * (45035996273705 / 2 ^ 52) := by positivity
  have hup := fl_le hy0
  have hlo := fl_ge hy0
  have hlow : (t : ℚ) < fl ((100 * (t : ℚ)) * (45035996273705 / 2 ^ 52)) := by
    have hgap : (100 * (t : ℚ)) * (45035996273705 / 2 ^ 52) -
        ((100 * (t : ℚ)) * (45035996273705 / 2 ^ 52)) / 2 ^ 53 - (t : ℚ) =
        (t : ℚ) * (1 / 2 ^ 50 - 1 / 2 ^ 53 - 1 / (2 ^ 50 * 2 ^ 53)) := by
      rw [hy1]
      ring
    have hgap2 : (0 : ℚ) < (t : ℚ) * (1 / 2 ^ 50 - 1 / 2 ^ 53 - 1 / (2 ^ 50 * 2 ^ 53)) := by
      apply mul_pos (by linarith)
      norm_num
    linarith
  have hhigh : fl ((100 * (t : ℚ)) * (45035996273705 / 2 ^ 52)) ≤ (t : ℚ) + 1 := by
    have hgap : (100 * (t : ℚ)) * (45035996273705 / 2 ^ 52) +
        ((100 * (t : ℚ)) * (45035996273705 / 2 ^ 52)) / 2 ^ 53 - (t : ℚ) =
        (t : ℚ) * (1 / 2 ^ 50 + 1 / 2 ^ 53 + 1 / (2 ^ 50 * 2 ^ 53)) := by
      rw [hy1]
      ring
    have hgap2 : (t : ℚ) * (1 / 2 ^ 50 + 1 / 2 ^ 53 + 1 / (2 ^ 50 * 2 ^ 53)) ≤
        (2 ^ 26 : ℚ) * (1 / 2 ^ 50 + 1 / 2 ^ 53 + 1 / (2 ^ 50 * 2 ^ 53)) :=
      mul_le_mul_of_nonneg_right htb (by norm_num)
    have hgap3 : (2 ^ 26 : ℚ) * (1 / 2 ^ 50 + 1 / 2 ^ 53 + 1 / (2 ^ 50 * 2 ^ 53)) < 1 := by
      norm_num
    linarith
  apply Int.ceil_eq_iff.mpr
  refine ⟨by push_cast; linarith, by push_cast; linarith⟩

/-! ## Plumbing for the percentile selector -/

theorem claimIdx_nonneg {n : Nat} (hn : 1 ≤ n) {p : ℚ} (hp : p ≤ 100) :
    0 ≤ claimIdx n p := by
  apply Int.ceil_nonneg
  have h1 : (1 : ℚ) ≤ (n : ℚ) := by exact_mod_cast hn
  apply mul_nonneg (by linarith)
  linarith

theorem length_cast_sub_one {s : List NodePctEntry} (hs : s ≠ []) :
    ((s.length : ℚ) - 1) = ((s.length - 1 : ℕ) : ℚ) := by
  have hn : 1 ≤ s.length := List.length_pos.mpr hs
  rw [Nat.cast_sub hn]
  norm_num

theorem getPercentile_eq (s : List NodePctEntry) (p : ℚ) (hs : s ≠ [])
    (h : 0 ≤ ⌈fl (((s.length : ℚ) - 1) * fl (1 - fl (p / 100)))⌉) :
    getPercentile s p =
      s[(⌈fl (((s.length : ℚ) - 1) * fl (1 - fl (p / 100)))⌉).toNat]? := by
  have hn : ¬(s.length = 0) := fun h0 => hs (List.length_eq_zero.mp h0)
  unfold getPercentile
  rw [if_neg hn, if_neg (not_lt.mpr h)]

/-! ## Claim C3 -/

/-- C3 (amended): on a non-empty descending-sorted percentage array (a JS
array, so of length at most `2^32`) the percentile selector returns the
element at index `Math.ceil((n-1) * (1 - p/100))` computed in binary64, with
the specially-coded P100 and P0 fields at index 0 and the last index.  For
the program's calls this coincides with the exact-arithmetic index
`ceil((n-1)*(1-p/100))` at `p = 50, 90, 10` (and trivially at `p = 100` and
`p = 0`); at `p = 99`, however, the binary64 value of `1 - 99/100` is
`1/100 + 1/(25 * 2^52) > 1/100`, so whenever `n - 1` is a positive multiple
`100*t` of 100 the program selects index `t + 1`, one past the exact
formula's index `t`. -/
theorem claim_C3 (s : List NodePctEntry) (hs : s ≠ [])
    (_hsorted : s.Pairwise (fun a b => b.percentage ≤ a.percentage))
    (hlen : s.length ≤ 2 ^ 32) :
    ((percentilesOf s).p100 = s[0]? ∧ (percentilesOf s).p0 = s[s.length - 1]?) ∧
    (getPercentile s 100 = s[0]? ∧ getPercentile s 0 = s[s.length - 1]?) ∧
    getPercentile s 50 = s[(claimIdx s.length 50).toNat]? ∧
    getPercentile s 90 = s[(claimIdx s.length 90).toNat]? ∧
    getPercentile s 10 = s[(claimIdx s.length 10).toNat]? ∧
    (¬(100 ∣ (s.length - 1)) → getPercentile s 99 = s[(claimIdx s.length 99).toNat]?) ∧
    (∀ t : ℕ, 1 ≤ t → s.length - 1 = 100 * t →
      getPercentile s 99 = s[t + 1]? ∧ (claimIdx s.length 99).toNat = t) := by
  have hn : 1 ≤ s.length := List.length_pos.mpr hs
  have hkb : s.length - 1 ≤ 2 ^ 32 := by omega
  have hcast : ((s.length : ℚ) - 1) = ((s.length - 1 : ℕ) : ℚ) := length_cast_sub_one hs
  refine ⟨⟨rfl, rfl⟩, ⟨?_, ?_⟩, ?_, ?_, ?_, ?_, ?_⟩
  · have hIdx : ⌈fl (((s.length : ℚ) - 1) * fl (1 - fl ((100 : ℚ) / 100)))⌉ = 0 := by
      rw [fl_d100, mul_zero, fl_zero, Int.ceil_zero]
    rw [getPercentile_eq s 100 hs (le_of_eq hIdx.symm), hIdx]
    rfl
  · have hflk : fl ((s.length - 1 : ℕ) : ℚ) = ((s.length - 1 : ℕ) : ℚ) := by
      rcases Nat.eq_zero_or_pos (s.length - 1) with h0 | hpos
      · rw [h0]
        norm_num [fl_zero]
      · have h := fl_mul_zpow_eq_self ((s.length - 1 : ℕ) : ℤ) 0 (by exact_mod_cast hpos)
          (by omega)
        rw [zpow_zero, mul_one, Int.cast_natCast] at h
        exact h
    have hIdx : ⌈fl (((s.length : ℚ) - 1) * fl (1 - fl ((0 : ℚ) / 100)))⌉ =
        ((s.length - 1 : ℕ) : ℤ) := by
      rw [fl_d0, mul_one, hcast, hflk, Int.ceil_natCast]
    rw [getPercentile_eq s 0 hs (by rw [hIdx]; omega), hIdx, Int.toNat_natCast]
  · have hIdx : ⌈fl (((s.length : ℚ) - 1) * fl (1 - fl ((50 : ℚ) / 100)))⌉ =
        claimIdx s.length 50 := by
      unfold claimIdx
      rw [fl_d50, hcast, ceil_fl_half (s.length - 1) hkb]
    rw [getPercentile_eq s 50 hs (by rw [hIdx]; exact claimIdx_nonneg hn (by norm_num)), hIdx]
  · have hIdx : ⌈fl (((s.length : ℚ) - 1) * fl (1 - fl ((90 : ℚ) / 100)))⌉ =
        claimIdx s.length 90 := by
      unfold claimIdx
      rw [fl_d90, hcast, ceil_fl_d90 (s.length - 1) hkb]
    rw [getPercentile_eq s 90 hs (by rw [hIdx]; exact claimIdx_nonneg hn (by norm_num)), hIdx]
  · have hIdx : ⌈fl (((s.length : ℚ) - 1) * fl (1 - fl ((10 : ℚ) / 100)))⌉ =
        claimIdx s.length 10 := by
      unfold claimIdx
      rw [fl_d10, hcast, ceil_fl_d10 (s.length - 1) hkb]
    rw [getPercentile_eq s 10 hs (by rw [hIdx]; exact claimIdx_nonneg hn (by norm_num)), hIdx]
  · intro hnd
    have hIdx : ⌈fl (((s.length : ℚ) - 1) * fl (1 - fl ((99 : ℚ) / 100)))⌉ =
        claimIdx s.length 99 := by
      unfold claimIdx
      rw [fl_d99, hcast, ceil_fl_d99_not_dvd (s.length - 1) hkb hnd]
    rw [getPercentile_eq s 99 hs (by rw [hIdx]; exact claimIdx_nonneg hn (by norm_num)), hIdx]
  · intro t ht1 hteq
    have ht26 : t ≤ 2 ^ 26 := by omega
    have hkq : ((s.length - 1 : ℕ) : ℚ) = 100 * (t : ℚ) := by exact_mod_cast hteq
    have hIdx : ⌈fl (((s.length : ℚ) - 1) * fl (1 - fl ((99 : ℚ) / 100)))⌉ = (t : ℤ) + 1 := by
      rw [fl_d99, hcast, hkq]
      exact ceil_fl_d99_dvd t ht1 ht26
    refine ⟨?_, ?_⟩
    · rw [getPercentile_eq s 99 hs (by rw [hIdx]; omega), hIdx,
        show ((t : ℤ) + 1).toNat = t + 1 by omega]
    · have hcl : claimIdx s.length 99 = (t : ℤ) := by
        unfold claimIdx
        rw [hcast, hkq, show (100 * (t : ℚ)) * (1 - 99 / 100) = ((t : ℤ) : ℚ) by
          push_cast
          ring]
        exact Int.ceil_intCast _
      rw [hcl, Int.toNat_natCast]

theorem pairwise_replicate_le (n : ℕ) (e : NodePctEntry) :
    (List.replicate n e).Pairwise (fun a b => b.percentage ≤ a.percentage) := by
  induction n with
  | zero => simp
  | succ m ih =>
    rw [List.replicate_succ]
    refine List.Pairwise.cons ?_ ih
    intro b hb
    rw [List.eq_of_mem_replicate hb]

/-- C3 counterexample: on a 101-element descending-sorted percentage array
the program's P99 selection reads index 2, while the claimed exact formula
`ceil((n-1)*(1-99/100))` gives index 1: in binary64, `1 - 99/100` evaluates
to `0.010000000000000009 > 1/100`, so `Math.ceil(100 * (1 - 99/100)) = 2`. -/
theorem claim_C3_counterexample :
    (⟨"a", 2, 0, 0⟩ :: ⟨"b", 1, 0, 0⟩ :: ⟨"c", 1, 0, 0⟩ ::
        List.replicate 98 (⟨"d", 0, 0, 0⟩ : NodePctEntry)).Pairwise
      (fun a b => b.percentage ≤ a.percentage) ∧
    (⟨"a", 2, 0, 0⟩ :: ⟨"b", 1, 0, 0⟩ :: ⟨"c", 1, 0, 0⟩ ::
        List.replicate 98 (⟨"d", 0, 0, 0⟩ : NodePctEntry)).length = 101 ∧
    claimIdx 101 99 = 1 ∧
    getPercentile (⟨"a", 2, 0, 0⟩ :: ⟨"b", 1, 0, 0⟩ :: ⟨"c", 1, 0, 0⟩ ::
        List.replicate 98 (⟨"d", 0, 0, 0⟩ : NodePctEntry)) 99 = some ⟨"c", 1, 0, 0⟩ ∧
    getPercentile (⟨"a", 2, 0, 0⟩ :: ⟨"b", 1, 0, 0⟩ :: ⟨"c", 1, 0, 0⟩ ::
        List.replicate 98 (⟨"d", 0, 0, 0⟩ : NodePctEntry)) 99 ≠
      (⟨"a", 2, 0, 0⟩ :: ⟨"b", 1, 0, 0⟩ :: ⟨"c", 1, 0, 0⟩ ::
        List.replicate 98 (⟨"d", 0, 0, 0⟩ : NodePctEntry))[
          (claimIdx (⟨"a", 2, 0, 0⟩ :: ⟨"b", 1, 0, 0⟩ :: ⟨"c", 1, 0, 0⟩ ::
            List.replicate 98 (⟨"d", 0, 0, 0⟩ : NodePctEntry)).length 99).toNat]? := by
  have hne : (⟨"a", 2, 0, 0⟩ :: ⟨"b", 1, 0, 0⟩ :: ⟨"c", 1, 0, 0⟩ ::
      List.replicate 98 (⟨"d", 0, 0, 0⟩ : NodePctEntry)) ≠ [] := List.cons_ne_nil _ _
  have hlen : (⟨"a", 2, 0, 0⟩ :: ⟨"b", 1, 0, 0⟩ :: ⟨"c", 1, 0, 0⟩ ::
      List.replicate 98 (⟨"d", 0, 0, 0⟩ : NodePctEntry)).length = 101 := by
    simp
  have hsorted : (⟨"a", 2, 0, 0⟩ :: ⟨"b", 1, 0, 0⟩ :: ⟨"c", 1, 0, 0⟩ ::
      List.replicate 98 (⟨"d", 0, 0, 0⟩ : NodePctEntry)).Pairwise
      (fun a b => b.percentage ≤ a.percentage) := by
    refine List.Pairwise.cons ?_ (List.Pairwise.cons ?_ (List.Pairwise.cons ?_
      (pairwise_replicate_le 98 _)))
    · intro b hb
      simp only [List.mem_cons, List.mem_replicate] at hb
      rcases hb with rfl | rfl | ⟨-, rfl⟩ <;> norm_num
    · intro b hb
      simp only [List.mem_cons, List.mem_replicate] at hb
      rcases hb with rfl | ⟨-, rfl⟩ <;> norm_num
    · intro b hb
      rw [List.eq_of_mem_replicate hb]
      norm_num
  have hclaim : claimIdx 101 99 = 1 := by
    unfold claimIdx
    rw [show (((101 : ℕ) : ℚ) - 1) * (1 - 99 / 100) = ((1 : ℤ) : ℚ) by push_cast; norm_num]
    exact Int.ceil_intCast 1
  have hIdx : ⌈fl ((((⟨"a", 2, 0, 0⟩ :: ⟨"b", 1, 0, 0⟩ :: ⟨"c", 1, 0, 0⟩ ::
      List.replicate 98 (⟨"d", 0, 0, 0⟩ : NodePctEntry)).length : ℚ) - 1) *
        fl (1 - fl ((99 : ℚ) / 100)))⌉ = 2 := by
    rw [hlen, fl_d99, show (((101 : ℕ) : ℚ) - 1) = 100 by push_cast; norm_num,
      show ((100 : ℚ) * (45035996273705 / 2 ^ 52)) =
        ((4503599627370500 : ℤ) : ℚ) * (2 : ℚ) ^ (-52 : ℤ) by push_cast; norm_num,
      fl_mul_zpow_eq_self 4503599627370500 (-52) (by norm_num) (by norm_num)]
    apply Int.ceil_eq_iff.mpr
    constructor
    · push_cast
      norm_num
    · push_cast
      norm_num
  have hgp : getPercentile (⟨"a", 2, 0, 0⟩ :: ⟨"b", 1, 0, 0⟩ :: ⟨"c", 1, 0, 0⟩ ::
      List.replicate 98 (⟨"d", 0, 0, 0⟩ : NodePctEntry)) 99 = some ⟨"c", 1, 0, 0⟩ := by
    rw [getPercentile_eq _ 99 hne (by rw [hIdx]; norm_num), hIdx]
    rfl
  refine ⟨hsorted, hlen, hclaim, hgp, ?_⟩
  rw [hgp, hlen, hclaim]
  intro h
  have h2 := Option.some.inj h.symm
  exact absurd (congrArg NodePctEntry.nodeName h2) (by decide)

/-- C3 witness: the amended selection equations on a concrete descending
two-node array; `n - 1 = 1` is not a multiple of 100, so P99 sits at the
exact-formula index `ceil(1 * (1 - 99/100)) = 1`. -/
theorem claim_C3_witness :
    ¬(100 ∣ (([⟨"a", 1, 0, 0⟩, ⟨"b", 0, 0, 0⟩] : List NodePctEntry).length - 1)) ∧
    getPercentile ([⟨"a", 1, 0, 0⟩, ⟨"b", 0, 0, 0⟩] : List NodePctEntry) 99 =
      ([⟨"a", 1, 0, 0⟩, ⟨"b", 0, 0, 0⟩] : List NodePctEntry)[
        (claimIdx ([⟨"a", 1, 0, 0⟩, ⟨"b", 0, 0, 0⟩] : List NodePctEntry).length 99).toNat]? :=
  ⟨by decide,
   (claim_C3 [⟨"a", 1, 0, 0⟩, ⟨"b", 0, 0, 0⟩] (List.cons_ne_nil _ _)
      (by norm_num [List.pairwise_cons]) (by norm_num)).2.2.2.2.2.1 (by decide)⟩

theorem sortByPctDesc_sorted (l : List NodePctEntry) :
    (sortByPctDesc l).Pairwise (fun a b => b.percentage ≤ a.percentage) := by
  unfold sortByPctDesc
  refine List.Pairwise.imp ?_ (List.sorted_mergeSort ?_ ?_ l)
  · intro a b hab
    exact of_decide_eq_true hab
  · intro a b c hab hbc
    exact decide_eq_true (le_trans (of_decide_eq_true hbc) (of_decide_eq_true hab))
  · intro a b
    simp only [Bool.or_eq_true, decide_eq_true_eq]
    exact le_total b.percentage a.percentage

theorem sorted_pct_le {s : List NodePctEntry}
    (hs : s.Pairwise (fun a b => b.percentage ≤ a.percentage)) {i j : Nat} (hij : i ≤ j)
    (hj : j < s.length) :
    (s.get ⟨j, hj⟩).percentage ≤ (s.get ⟨i, lt_of_le_of_lt hij hj⟩).percentage := by
  rcases lt_or_eq_of_le hij with hlt | rfl
  · exact List.pairwise_iff_getElem.mp hs i j (lt_of_le_of_lt hij hj) hj hlt
  · exact le_refl _

theorem fl_mul_le (K c : ℚ) (hK : 0 ≤ K) (hc : 0 ≤ c) (h1 : c + c / 2 ^ 53 ≤ 1) :
    fl (K * c) ≤ K := by
  have h := fl_le (mul_nonneg hK hc)
  have h2 : K * c + (K * c) / 2 ^ 53 = K * (c + c / 2 ^ 53) := by ring
  have h3 : K * (c + c / 2 ^ 53) ≤ K * 1 := mul_le_mul_of_nonneg_left h1 hK
  linarith

theorem getPercentile_idx (s : List NodePctEntry) (hs : s ≠ []) (p c : ℚ)
    (hc : fl (1 - fl (p / 100)) = c) (h0 : 0 ≤ c) (h1 : c + c / 2 ^ 53 ≤ 1) :
    (⌈fl (((s.length : ℚ) - 1) * c)⌉).toNat ≤ s.length - 1 ∧
    getPercentile s p = s[(⌈fl (((s.length : ℚ) - 1) * c)⌉).toNat]? := by
  have hn : 1 ≤ s.length := List.length_pos.mpr hs
  have hK0 : (0 : ℚ) ≤ (s.length : ℚ) - 1 := by
    have hq : (1 : ℚ) ≤ (s.length : ℚ) := by exact_mod_cast hn
    linarith
  have hnn : 0 ≤ ⌈fl (((s.length : ℚ) - 1) * c)⌉ :=
    Int.ceil_nonneg (fl_nonneg (mul_nonneg hK0 h0))
  refine ⟨?_, ?_⟩
  · have hle : fl (((s.length : ℚ) - 1) * c) ≤ ((s.length - 1 : ℕ) : ℚ) := by
      rw [← length_cast_sub_one hs]
      exact fl_mul_le _ c hK0 h0 h1
    have hceil : ⌈fl (((s.length : ℚ) - 1) * c)⌉ ≤ ((s.length - 1 : ℕ) : ℤ) := by
      calc ⌈fl (((s.length : ℚ) - 1) * c)⌉ ≤ ⌈((s.length - 1 : ℕ) : ℚ)⌉ := Int.ceil_mono hle
        _ = ((s.length - 1 : ℕ) : ℤ) := Int.ceil_natCast _
    omega
  · rw [← hc]
    exact getPercentile_eq s p hs (by rw [hc]; exact hnn)

theorem pctOf_get {s : List NodePctEntry} {i : ℕ} (h : i < s.length) :
    pctOf s[i]? = (s.get ⟨i, h⟩).percentage := by
  rw [List.getElem?_eq_getElem h]
  rfl

theorem isSome_get {s : List NodePctEntry} {i : ℕ} (h : i < s.length) :
    (s[i]?).isSome := by
  rw [List.getElem?_eq_getElem h]
  rfl

/-- C8: for every node list, usage data and resource name, when nodes exist
all six selected percentiles are present and their percentages are monotone:
P100 ≥ P99 ≥ P90 ≥ P50 ≥ P10 ≥ P0. -/
theorem claim_C8 (nodes : List NodeType) (usage : String → Option ResourceUsage)
    (res : String) (h : nodes ≠ []) :
    ((resourceStatsFor nodes usage res).percentiles.p100.isSome ∧
     (resourceStatsFor nodes usage res).percentiles.p99.isSome ∧
     (resourceStatsFor nodes usage res).percentiles.p90.isSome ∧
     (resourceStatsFor nodes usage res).percentiles.p50.isSome ∧
     (resourceStatsFor nodes usage res).percentiles.p10.isSome ∧
     (resourceStatsFor nodes usage res).percentiles.p0.isSome) ∧
    (pctOf ((resourceStatsFor nodes usage res).percentiles.p99) ≤
       pctOf ((resourceStatsFor nodes usage res).percentiles.p100) ∧
     pctOf ((resourceStatsFor nodes usage res).percentiles.p90) ≤
       pctOf ((resourceStatsFor nodes usage res).percentiles.p99) ∧
     pctOf ((resourceStatsFor nodes usage res).percentiles.p50) ≤
       pctOf ((resourceStatsFor nodes usage res).percentiles.p90) ∧
     pctOf ((resourceStatsFor nodes usage res).percentiles.p10) ≤
       pctOf ((resourceStatsFor nodes usage res).percentiles.p50) ∧
     pctOf ((resourceStatsFor nodes usage res).percentiles.p0) ≤
       pctOf ((resourceStatsFor nodes usage res).percentiles.p10)) := by
  have hP : (resourceStatsFor nodes usage res).percentiles =
      percentilesOf (sortByPctDesc ((nodes.filter isValidNode).map (nodeEntry usage res))) :=
    rfl
  set s := sortByPctDesc ((nodes.filter isValidNode).map (nodeEntry usage res)) with hsdef
  have hlen : s.length = nodes.length := by
    rw [hsdef]
    unfold sortByPctDesc
    rw [List.length_mergeSort, List.length_map, filter_isValidNode]
  have hsne : s ≠ [] := by
    have hnn : nodes.length ≠ 0 := fun h0 => h (List.length_eq_zero.mp h0)
    intro h0
    rw [h0] at hlen
    exact hnn hlen.symm
  have hsort := hsdef ▸ sortByPctDesc_sorted ((nodes.filter isValidNode).map (nodeEntry usage res))
  have hn1 : 1 ≤ s.length := List.length_pos.mpr hsne
  obtain ⟨hb99, he99⟩ := getPercentile_idx s hsne 99 (45035996273705 / 2 ^ 52) fl_d99
    (by norm_num) (by norm_num)
  obtain ⟨hb90, he90⟩ := getPercentile_idx s hsne 90 (900719925474099 / 2 ^ 53) fl_d90
    (by norm_num) (by norm_num)
  obtain ⟨hb50, he50⟩ := getPercentile_idx s hsne 50 (1 / 2) fl_d50 (by norm_num) (by norm_num)
  obtain ⟨hb10, he10⟩ := getPercentile_idx s hsne 10 (8106479329266893 / 2 ^ 53) fl_d10
    (by norm_num) (by norm_num)
  have hlt99 : (⌈fl (((s.length : ℚ) - 1) * (45035996273705 / 2 ^ 52))⌉).toNat < s.length := by
    omega
  have hlt90 : (⌈fl (((s.length : ℚ) - 1) * (900719925474099 / 2 ^ 53))⌉).toNat < s.length := by
    omega
  have hlt50 : (⌈fl (((s.length : ℚ) - 1) * (1 / 2))⌉).toNat < s.length := by
    omega
  have hlt10 : (⌈fl (((s.length : ℚ) - 1) * (8106479329266893 / 2 ^ 53))⌉).toNat < s.length := by
    omega
  have hK0 : (0 : ℚ) ≤ (s.length : ℚ) - 1 := by
    have hq : (1 : ℚ) ≤ (s.length : ℚ) := by exact_mod_cast hn1
    linarith
  have hmono : ∀ c d : ℚ, 0 ≤ c → c ≤ d →
      (⌈fl (((s.length : ℚ) - 1) * c)⌉).toNat ≤ (⌈fl (((s.length : ℚ) - 1) * d)⌉).toNat := by
    intro c d hc hcd
    have h1 : fl (((s.length : ℚ) - 1) * c) ≤ fl (((s.length : ℚ) - 1) * d) :=
      fl_mono (mul_nonneg hK0 hc) (mul_le_mul_of_nonneg_left hcd hK0)
    exact Int.toNat_le_toNat (Int.ceil_mono h1)
  rw [hP]
  simp only [percentilesOf]
  constructor
  · refine ⟨isSome_get hn1, ?_, ?_, ?_, ?_, isSome_get (by omega)⟩
    · rw [he99]
      exact isSome_get hlt99
    · rw [he90]
      exact isSome_get hlt90
    · rw [he50]
      exact isSome_get hlt50
    · rw [he10]
      exact isSome_get hlt10
  · refine ⟨?_, ?_, ?_, ?_, ?_⟩
    · rw [he99, pctOf_get hlt99, pctOf_get hn1]
      exact sorted_pct_le hsort (Nat.zero_le _) hlt99
    · rw [he99, he90, pctOf_get hlt99, pctOf_get hlt90]
      exact sorted_pct_le hsort (hmono _ _ (by norm_num) (by norm_num)) hlt90
    · rw [he90, he50, pctOf_get hlt90, pctOf_get hlt50]
      exact sorted_pct_le hsort (hmono _ _ (by norm_num) (by norm_num)) hlt50
    · rw [he50, he10, pctOf_get hlt50, pctOf_get hlt10]
      exact sorted_pct_le hsort (hmono _ _ (by norm_num) (by norm_num)) hlt10
    · rw [he10, pctOf_get hlt10, pctOf_get (show s.length - 1 < s.length by omega)]
      exact sorted_pct_le hsort hb10 (by omega)

/-- C8 witness: the percentile chain on a concrete one-node cluster with an
empty usage map for the resource `"cpu"`. -/
theorem claim_C8_witness :
    (resourceStatsFor [(⟨⟨"a", "u", none⟩, ⟨[("cpu", "4")], none⟩⟩ : NodeType)]
        (fun _ => none) "cpu").percentiles.p100.isSome ∧
    pctOf ((resourceStatsFor [(⟨⟨"a", "u", none⟩, ⟨[("cpu", "4")], none⟩⟩ : NodeType)]
        (fun _ => none) "cpu").percentiles.p0) ≤
      pctOf ((resourceStatsFor [(⟨⟨"a", "u", none⟩, ⟨[("cpu", "4")], none⟩⟩ : NodeType)]
        (fun _ => none) "cpu").percentiles.p10) :=
  ⟨((claim_C8 [(⟨⟨"a", "u", none⟩, ⟨[("cpu", "4")], none⟩⟩ : NodeType)] (fun _ => none) "cpu"
      (List.cons_ne_nil _ _)).1).1,
   ((claim_C8 [(⟨⟨"a", "u", none⟩, ⟨[("cpu", "4")], none⟩⟩ : NodeType)] (fun _ => none) "cpu"
      (List.cons_ne_nil _ _)).2).2.2.2.2⟩

/-! ## Claim C4 -/

/-- C4: when a pod's condition list is present, the classifier keys on the
first condition with type `PodScheduled` and status `False`: it returns
`null` when no such condition exists; otherwise it prefers the condition's
non-empty message run through the free-text cleaner, and falls back to the
condition's non-empty reason when the message is absent or empty. -/
theorem claim_C4 (pod : PodType) (conds : List CondType)
    (h : pod.status.conditions = some conds) :
    ((∀ c ∈ conds, ¬(c.type = "PodScheduled" ∧ c.status = "False")) →
      getSchedulingFailureReason pod = none) ∧
    (∀ c, conds.find? (fun c => c.type = "PodScheduled" && c.status = "False") = some c →
      (∀ m, c.message = some m → ¬(m = "") →
        getSchedulingFailureReason pod = some (parseSchedulingFailureMessage m)) ∧
      ((c.message = none ∨ c.message = some "") →
        ∀ r, c.reason = some r → ¬(r = "") →
          getSchedulingFailureReason pod = some r)) := by
  unfold getSchedulingFailureReason
  constructor
  · intro hno
    have hfind : conds.find? (fun c => c.type = "PodScheduled" && c.status = "False") = none := by
      rw [List.find?_eq_none]
      intro x hx
      simpa using hno x hx
    simp only [h, hfind]
  · intro c hfind
    constructor
    · intro m hm hmne
      simp only [h, hfind, hm]
      rw [if_neg hmne]
    · intro hmsg r hr hrne
      rcases hmsg with hmsg | hmsg
      · simp only [h, hfind, hmsg, jsStrOr, hr]
        rw [if_neg hrne]
      · simp only [h, hfind, hmsg, jsStrOr, hr]
        rw [if_pos trivial, if_neg hrne]

/-- C4 witness: a `PodScheduled`/`False` condition with a message is
classified through the cleaner, and one with no message falls back to its
reason. -/
theorem claim_C4_witness :
    getSchedulingFailureReason
        (⟨⟨"p", "u", "ns"⟩, ⟨none, [⟨none⟩]⟩,
          ⟨"Pending", some [⟨"PodScheduled", "False", some "Unschedulable",
            some "1 Insufficient cpu"⟩]⟩⟩ : PodType) =
      some (parseSchedulingFailureMessage "1 Insufficient cpu") ∧
    getSchedulingFailureReason
        (⟨⟨"p", "u", "ns"⟩, ⟨none, [⟨none⟩]⟩,
          ⟨"Pending", some [⟨"PodScheduled", "False", some "Unschedulable", none⟩]⟩⟩ :
          PodType) =
      some "Unschedulable" := by
  constructor
  · exact ((claim_C4
      (⟨⟨"p", "u", "ns"⟩, ⟨none, [⟨none⟩]⟩,
        ⟨"Pending", some [⟨"PodScheduled", "False", some "Unschedulable",
          some "1 Insufficient cpu"⟩]⟩⟩ : PodType)
      [⟨"PodScheduled", "False", some "Unschedulable", some "1 Insufficient cpu"⟩] rfl).2
      ⟨"PodScheduled", "False", some "Unschedulable", some "1 Insufficient cpu"⟩
      (by decide)).1 "1 Insufficient cpu" rfl (by decide)
  · exact ((claim_C4
      (⟨⟨"p", "u", "ns"⟩, ⟨none, [⟨none⟩]⟩,
        ⟨"Pending", some [⟨"PodScheduled", "False", some "Unschedulable", none⟩]⟩⟩ : PodType)
      [⟨"PodScheduled", "False", some "Unschedulable", none⟩] rfl).2
      ⟨"PodScheduled", "False", some "Unschedulable", none⟩
      (by decide)).2 (Or.inl rfl) "Unschedulable" rfl (by decide)

end SchedConsole
